import Mathlib

/-!
# Zoo Planner — a shallow embedding of the spatial placement engine

This file embeds the core of `app.js` (the second, current copy of the app,
lines 1198-3146): the overlap test, the placement store and its mutating
operations, the move/resize/draw gesture handlers, the enclosure validation
status, and the compact URL state codec.  JavaScript numbers that hold grid
coordinates and sizes are modelled as `Int` (all arithmetic on them in the
source is exact integer arithmetic); `parseInt` results that may be `NaN`
are modelled as `Option Nat` with `none` for `NaN`.  DOM rendering, cursor
updates and the URL bar are external effects with no bearing on the store
and are dropped; the confirmation dialog is modelled by a boolean
`accept` parameter (whether its accept callback is invoked).  Strings are
modelled as Lean `String`s; string concatenation, `join('')` and
character indexing are modelled as the corresponding operations on the
underlying character lists.
-/

namespace ZooPlanner

/-- `const GRID_SIZE = 30` (app.js:1198). -/
def GRID_SIZE : Int := 30

/-- `Math.max` on integers. -/
def jsMax (a b : Int) : Int := max a b

/-- `Math.min` on integers. -/
def jsMin (a b : Int) : Int := min a b

/-- An axis-aligned rectangle in grid units: top-left corner `(x, y)`,
width `w`, height `h`. -/
structure Rect where
  x : Int
  y : Int
  w : Int
  h : Int
  deriving DecidableEq, Repr

/-- The per-entity test inlined three times in `checkOverlap`
(app.js:1233-1236, 1245-1248, 1257-1260):
`!(gridX + width <= b.gridX || gridX >= b.gridX + b.width ||
   gridY + height <= b.gridY || gridY >= b.gridY + b.height)`.
`a` is the candidate rectangle `(gridX, gridY, width, height)`, `b` the
stored entity's rectangle. -/
def rectsOverlap (a b : Rect) : Bool :=
  !(decide (a.x + a.w ≤ b.x) || decide (a.x ≥ b.x + b.w) ||
    decide (a.y + a.h ≤ b.y) || decide (a.y ≥ b.y + b.h))

/-- A placed building or decoration (app.js:2131-2172): the catalog entry's
fields spread into the instance, with an instance `id` string and a grid
position.  Cosmetic fields (name, emoji, color) are dropped. -/
structure PlacedItem where
  id : String
  width : Int
  height : Int
  gridX : Int
  gridY : Int
  deriving DecidableEq, Repr

/-- An enclosure (app.js:2846-2853). -/
structure Enclosure where
  id : String
  gridX : Int
  gridY : Int
  width : Int
  height : Int
  animal : String
  deriving DecidableEq, Repr

/-- A catalog entry for a building or decoration (app.js:1297-1304,
1319-1326); cosmetic fields dropped. -/
structure CatalogEntry where
  id : String
  width : Int
  height : Int
  deriving DecidableEq, Repr

/-- An animal requirement entry (app.js:1275-1281). -/
structure Animal where
  id : String
  minPerimeter : Int
  minArea : Int
  deriving DecidableEq, Repr

/-- The persistent part of the app `state` object (app.js:1211-1225).
The transient gesture fields (`drawing`, `movingItem`, `moveStartPos`,
`resizingEnclosure`, `draggingBuilding`) are modelled as explicit
parameters of the gesture functions below; `zooName` is outside the
geometric core. -/
structure ZooState where
  selectedAnimal : Option String
  placedBuildings : List PlacedItem
  placedDecorations : List PlacedItem
  enclosures : List Enclosure
  nextEnclosureId : Nat
  nextBuildingId : Nat
  nextDecorationId : Nat
  deriving DecidableEq, Repr

/-- The initial app state (app.js:1211-1225). -/
def initialState : ZooState :=
  { selectedAnimal := none
    placedBuildings := []
    placedDecorations := []
    enclosures := []
    nextEnclosureId := 1
    nextBuildingId := 1
    nextDecorationId := 1 }

/-- `building.id === excludeId` where `excludeId` may be `null`
(modelled as `none`; `x === null` is false for every string `x`). -/
def idMatches (id : String) (excludeId : Option String) : Bool :=
  match excludeId with
  | some e => id == e
  | none => false

/-- `checkOverlap(gridX, gridY, width, height, excludeId)`
(app.js:1228-1266): scans buildings, then decorations, then enclosures,
skipping the entity whose id equals `excludeId`, and reports whether the
candidate rectangle overlaps any of the rest. -/
def checkOverlap (st : ZooState) (gridX gridY width height : Int)
    (excludeId : Option String := none) : Bool :=
  st.placedBuildings.any (fun b =>
    !(idMatches b.id excludeId) &&
      rectsOverlap ⟨gridX, gridY, width, height⟩ ⟨b.gridX, b.gridY, b.width, b.height⟩) ||
  st.placedDecorations.any (fun d =>
    !(idMatches d.id excludeId) &&
      rectsOverlap ⟨gridX, gridY, width, height⟩ ⟨d.gridX, d.gridY, d.width, d.height⟩) ||
  st.enclosures.any (fun e =>
    !(idMatches e.id excludeId) &&
      rectsOverlap ⟨gridX, gridY, width, height⟩ ⟨e.gridX, e.gridY, e.width, e.height⟩)

/-- The list of all stored entities' ids and rectangles, in scan order
(buildings, then decorations, then enclosures). -/
def entRects (st : ZooState) : List (String × Rect) :=
  st.placedBuildings.map (fun b => (b.id, ⟨b.gridX, b.gridY, b.width, b.height⟩)) ++
  st.placedDecorations.map (fun d => (d.id, ⟨d.gridX, d.gridY, d.width, d.height⟩)) ++
  st.enclosures.map (fun e => (e.id, ⟨e.gridX, e.gridY, e.width, e.height⟩))

/-! ## StateCodec: base-36 encoding and the compact URL format -/

/-- The base-36 digit character for a value `0 ≤ n < 36`: `'0'`-`'9'` then
`'a'`-`'z'`, as produced by JavaScript `Number.prototype.toString(36)`. -/
def digit36 (n : Nat) : Char :=
  if n < 10 then Char.ofNat (48 + n) else Char.ofNat (87 + n)

/-- The base-36 digit list of a natural number, most significant first
(the digits of `num.toString(36)`).  Written with an explicit fuel
argument so that it reduces definitionally; `toBase36` supplies ample
fuel (the value itself bounds the recursion depth, which is logarithmic). -/
def natToBase36Aux : Nat → Nat → List Char
  | 0, _ => []
  | fuel + 1, n => if n < 36 then [digit36 n]
      else natToBase36Aux fuel (n / 36) ++ [digit36 (n % 36)]

/-- `toBase36(num)` = `num.toString(36)` (app.js:1413-1415), as a character
list; negative values (which arise from `findIndex` returning `-1`) render
with a leading `'-'` as in JavaScript. -/
def toBase36 (n : Int) : List Char :=
  if n < 0 then '-' :: natToBase36Aux ((-n).toNat + 1) (-n).toNat
  else natToBase36Aux (n.toNat + 1) n.toNat

/-- `fromBase36(str)` = `parseInt(str, 36)` (app.js:1417-1419), restricted
to the single-character strings the decoder passes it (`str[i]` for a
string `str`); `parseInt` accepts `0`-`9`, `a`-`z` and `A`-`Z` and yields
`NaN` (modelled as `none`) on any other character. -/
def fromBase36 (c : Char) : Option Nat :=
  if 48 ≤ c.toNat ∧ c.toNat ≤ 57 then some (c.toNat - 48)
  else if 97 ≤ c.toNat ∧ c.toNat ≤ 122 then some (c.toNat - 87)
  else if 65 ≤ c.toNat ∧ c.toNat ≤ 90 then some (c.toNat - 55)
  else none

/-- `String.prototype.split('.')` on the character list of the string:
JavaScript's split with a single-character separator (always returns at
least one, possibly empty, part). -/
def splitOnDot : List Char → List (List Char)
  | [] => [[]]
  | c :: rest =>
    match splitOnDot rest with
    | [] => [[c]]
    | cur :: more => if c = '.' then [] :: cur :: more else (c :: cur) :: more

/-- `str.replace(/\.+$/, '')` (app.js:1447): remove the maximal trailing
run of `'.'` characters. -/
def stripTrailingDots (l : List Char) : List Char :=
  (l.reverse.dropWhile (· == '.')).reverse

/-- `Array.prototype.findIndex` over a catalog: the index of the first
entry satisfying the test, or `-1` if none does. -/
def findIndexJS {α : Type} (p : α → Bool) (l : List α) : Int :=
  match l.findIdx? p with
  | some i => (i : Int)
  | none => -1

/-- `b.id.split('-')[0]` (app.js:1429, 1435): the prefix of the instance
id before the first `'-'` (the whole string if it has none). -/
def typeIdOf (s : String) : String :=
  ⟨s.data.takeWhile (· != '-')⟩

/-- One building/decoration record of `encodeZooState` (app.js:1428-1438):
`toBase36(typeIndex) + toBase36(b.gridX) + toBase36(b.gridY)` where
`typeIndex` is the catalog index of the id prefix of the instance id. -/
def itemRecord (catalog : List CatalogEntry) (b : PlacedItem) : List Char :=
  toBase36 (findIndexJS (fun entry => entry.id == typeIdOf b.id) catalog) ++
  toBase36 b.gridX ++ toBase36 b.gridY

/-- One enclosure record of `encodeZooState` (app.js:1440-1444):
`toBase36(animalIndex) + toBase36(e.gridX) + toBase36(e.gridY) +
 toBase36(e.width) + toBase36(e.height)`. -/
def enclosureRecord (animals : List Animal) (e : Enclosure) : List Char :=
  toBase36 (findIndexJS (fun a => a.id == e.animal) animals) ++
  toBase36 e.gridX ++ toBase36 e.gridY ++ toBase36 e.width ++ toBase36 e.height

/-- `encodeZooState()` (app.js:1422-1448): the three record sections joined
by `'.'`, with trailing `'.'` characters stripped. -/
def encodeZooState (BUILDINGS DECORATIONS : List CatalogEntry)
    (ANIMALS : List Animal) (st : ZooState) : String :=
  let buildingStr := (st.placedBuildings.map (itemRecord BUILDINGS)).flatten
  let decorationStr := (st.placedDecorations.map (itemRecord DECORATIONS)).flatten
  let enclosureStr := (st.enclosures.map (enclosureRecord ANIMALS)).flatten
  ⟨stripTrailingDots (buildingStr ++ '.' :: (decorationStr ++ '.' :: enclosureStr))⟩

/-- A decoded building/decoration record (app.js:1464-1468): three
`parseInt(·, 36)` results, any of which may be `NaN` (`none`). -/
structure DecodedItem where
  typeIndex : Option Nat
  x : Option Nat
  y : Option Nat
  deriving DecidableEq, Repr

/-- A decoded enclosure record (app.js:1490-1496). -/
structure DecodedEnclosure where
  animalIndex : Option Nat
  x : Option Nat
  y : Option Nat
  w : Option Nat
  h : Option Nat
  deriving DecidableEq, Repr

/-- The structure returned by `decodeZooState` (app.js:1501). -/
structure DecodedState where
  buildings : List DecodedItem
  decorations : List DecodedItem
  enclosures : List DecodedEnclosure
  deriving DecidableEq, Repr

/-- The building/decoration section walk of `decodeZooState`
(app.js:1461-1484): fixed strides of 3 characters, a trailing partial
record silently discarded. -/
def parse3 : List Char → List DecodedItem
  | c0 :: c1 :: c2 :: rest =>
    ⟨fromBase36 c0, fromBase36 c1, fromBase36 c2⟩ :: parse3 rest
  | _ => []

/-- The enclosure section walk of `decodeZooState` (app.js:1486-1499):
fixed strides of 5 characters, a trailing partial record discarded. -/
def parse5 : List Char → List DecodedEnclosure
  | c0 :: c1 :: c2 :: c3 :: c4 :: rest =>
    ⟨fromBase36 c0, fromBase36 c1, fromBase36 c2, fromBase36 c3, fromBase36 c4⟩ :: parse5 rest
  | _ => []

/-- `decodeZooState(compact)` (app.js:1451-1506): split on `'.'`, pad the
(at most three) sections with empty strings, and walk each section in
fixed-width strides.  The body is wrapped in `try/catch` returning `null`
(`none`) on an exception; every operation the body performs (`split`,
character indexing, `parseInt`) is total in JavaScript — invalid
characters yield `NaN` fields, not exceptions — so the result is always
`some`. -/
def decodeZooState (compact : String) : Option DecodedState :=
  let parts := splitOnDot compact.data
  let buildingStr := parts.getD 0 []
  let decorationStr := parts.getD 1 []
  let enclosureStr := parts.getD 2 []
  some ⟨parse3 buildingStr, parse3 decorationStr, parse5 enclosureStr⟩

/-- The decimal digit list of a natural number (the characters of the
JavaScript template interpolation `${n}`), fuel-style like
`natToBase36Aux`. -/
def natToDecAux : Nat → Nat → List Char
  | 0, _ => []
  | fuel + 1, n => if n < 10 then [Char.ofNat (48 + n)]
      else natToDecAux fuel (n / 10) ++ [Char.ofNat (48 + n % 10)]

/-- Decimal rendering of a counter value, as in `${counter}`. -/
def natToDec (n : Nat) : List Char := natToDecAux (n + 1) n

/-- An instance id `` `${typeId}-${counter}` `` (app.js:2132, 2154, 2845). -/
def mkId (typeId : String) (counter : Nat) : String :=
  ⟨typeId.data ++ '-' :: natToDec counter⟩

/-! ## PlacementStore mutations -/

/-- `addBuilding(buildingDef, gridX, gridY)` (app.js:2131-2150): assign the
next instance id, append the instance.  (URL/DOM updates dropped.) -/
def addBuilding (buildingDef : CatalogEntry) (gridX gridY : Int)
    (st : ZooState) : ZooState :=
  let id := mkId buildingDef.id st.nextBuildingId
  { st with
    placedBuildings := st.placedBuildings ++
      [⟨id, buildingDef.width, buildingDef.height, gridX, gridY⟩]
    nextBuildingId := st.nextBuildingId + 1 }

/-- `addDecoration(decorationDef, gridX, gridY)` (app.js:2153-2172). -/
def addDecoration (decorationDef : CatalogEntry) (gridX gridY : Int)
    (st : ZooState) : ZooState :=
  let id := mkId decorationDef.id st.nextDecorationId
  { st with
    placedDecorations := st.placedDecorations ++
      [⟨id, decorationDef.width, decorationDef.height, gridX, gridY⟩]
    nextDecorationId := st.nextDecorationId + 1 }

/-- `addEnclosure(gridX, gridY, width, height)` (app.js:2836-2866):
no-op without a selected animal or when the animal is already used;
otherwise assign the next enclosure id and append. -/
def addEnclosure (gridX gridY width height : Int) (st : ZooState) : ZooState :=
  match st.selectedAnimal with
  | none => st
  | some animal =>
    if st.enclosures.any (fun e => e.animal == animal) then st
    else
      { st with
        enclosures := st.enclosures ++
          [⟨mkId "enclosure" st.nextEnclosureId, gridX, gridY, width, height, animal⟩]
        nextEnclosureId := st.nextEnclosureId + 1 }

/-- `String.prototype.includes` (app.js:2098). -/
def jsIncludes (s sub : String) : Bool :=
  decide (sub.data <:+: s.data)

/-- `handleGridDrop` (app.js:2075-2128), given the dragged item id and the
snapped grid cell of the drop point: look the id up as a building, else a
decoration; for a non-restroom building refuse a duplicate type; place
only when in bounds and non-overlapping. -/
def handleGridDrop (BUILDINGS DECORATIONS : List CatalogEntry)
    (itemId : String) (gridX gridY : Int) (st : ZooState) : ZooState :=
  match BUILDINGS.find? (fun b => b.id == itemId) with
  | some item =>
    let isRestroom := item.id == "restroom"
    let alreadyPlaced := st.placedBuildings.any (fun b => jsIncludes b.id item.id)
    if !isRestroom && alreadyPlaced then st
    else
      let fitsInGrid := decide (gridX + item.width ≤ GRID_SIZE) &&
        decide (gridY + item.height ≤ GRID_SIZE)
      let hasOverlap := checkOverlap st gridX gridY item.width item.height
      if fitsInGrid && !hasOverlap then addBuilding item gridX gridY st else st
  | none =>
    match DECORATIONS.find? (fun d => d.id == itemId) with
    | some item =>
      let fitsInGrid := decide (gridX + item.width ≤ GRID_SIZE) &&
        decide (gridY + item.height ≤ GRID_SIZE)
      let hasOverlap := checkOverlap st gridX gridY item.width item.height
      if fitsInGrid && !hasOverlap then addDecoration item gridX gridY st else st
    | none => st

/-- `deleteBuilding(id)` (app.js:3009-3019). -/
def deleteBuilding (id : String) (st : ZooState) : ZooState :=
  { st with placedBuildings := st.placedBuildings.filter (fun b => !(b.id == id)) }

/-- `deleteDecoration(id)` (app.js:3022-3032). -/
def deleteDecoration (id : String) (st : ZooState) : ZooState :=
  { st with placedDecorations := st.placedDecorations.filter (fun d => !(d.id == id)) }

/-- `deleteEnclosure(id)` (app.js:3113-3125). -/
def deleteEnclosure (id : String) (st : ZooState) : ZooState :=
  { st with enclosures := st.enclosures.filter (fun e => !(e.id == id)) }

/-- `deleteAllRestrooms()` (app.js:3043-3064). -/
def deleteAllRestrooms (st : ZooState) : ZooState :=
  { st with placedBuildings :=
      st.placedBuildings.filter (fun b => !(("restroom-".data.isPrefixOf b.id.data))) }

/-- `deleteAllDecorationType(decorationType)` (app.js:3067-3086). -/
def deleteAllDecorationType (decorationType : String) (st : ZooState) : ZooState :=
  let kept := st.placedDecorations.filter
    (fun d => !((decorationType ++ "-").data.isPrefixOf d.id.data))
  { st with placedDecorations := kept }

/-- `deleteEnclosureByAnimal(animalId)` (app.js:3128-3133). -/
def deleteEnclosureByAnimal (animalId : String) (st : ZooState) : ZooState :=
  match st.enclosures.find? (fun e => e.animal == animalId) with
  | some enclosure => deleteEnclosure enclosure.id st
  | none => st

/-- The accepted `startOver()` reset (app.js:3136-3160): clears the three
collections, resets the enclosure counter and the selected animal (the
building/decoration counters are not reset). -/
def startOver (st : ZooState) : ZooState :=
  { st with
    placedBuildings := []
    placedDecorations := []
    enclosures := []
    nextEnclosureId := 1
    selectedAnimal := none }

/-! ## InteractionController: gestures -/

/-- Which collection a moving entity lives in (`state.movingItem.type`,
app.js:2307, 2335: the strings `'enclosure'`, `'building'`,
`'decoration'`). -/
inductive ItemType
  | building
  | decoration
  | enclosure
  deriving DecidableEq, Repr

/-- `state.movingItem` (app.js:2306-2314, 2334-2342): the gesture-start
position (`originalX`, `originalY`) and the pointer offset from the
entity's corner. -/
structure MovingItem where
  type : ItemType
  id : String
  originalX : Int
  originalY : Int
  offsetX : Int
  offsetY : Int
  deriving DecidableEq, Repr

/-- `Array.prototype.find` by id on a list of placed items. -/
def findItem (l : List PlacedItem) (id : String) : Option PlacedItem :=
  l.find? (fun b => b.id == id)

/-- `Array.prototype.find` by id on a list of enclosures. -/
def findEnc (l : List Enclosure) (id : String) : Option Enclosure :=
  l.find? (fun e => e.id == id)

/-- Replace the first element satisfying `p` by its image under `f`
(the functional rendering of mutating, in place, the single object that
`Array.prototype.find` returned). -/
def updateFirstBy {α : Type} (p : α → Bool) (f : α → α) : List α → List α
  | [] => []
  | a :: rest => if p a then f a :: rest else a :: updateFirstBy p f rest

/-- The current rectangle of the entity a gesture is bound to
(`state.movingItem.data`, an alias into the store). -/
def entityRect (st : ZooState) (ty : ItemType) (id : String) : Option Rect :=
  match ty with
  | .building => (findItem st.placedBuildings id).map
      (fun b => ⟨b.gridX, b.gridY, b.width, b.height⟩)
  | .decoration => (findItem st.placedDecorations id).map
      (fun d => ⟨d.gridX, d.gridY, d.width, d.height⟩)
  | .enclosure => (findEnc st.enclosures id).map
      (fun e => ⟨e.gridX, e.gridY, e.width, e.height⟩)

/-- Write a new grid position through the `state.movingItem.data` alias
(`item.data.gridX = …` app.js:2512-2513, 2614-2615, 2654-2656). -/
def setPos (st : ZooState) (ty : ItemType) (id : String) (x y : Int) : ZooState :=
  match ty with
  | .building =>
    let l := updateFirstBy (fun b => b.id == id)
      (fun b => { b with gridX := x, gridY := y }) st.placedBuildings
    { st with placedBuildings := l }
  | .decoration =>
    let l := updateFirstBy (fun d => d.id == id)
      (fun d => { d with gridX := x, gridY := y }) st.placedDecorations
    { st with placedDecorations := l }
  | .enclosure =>
    let l := updateFirstBy (fun e => e.id == id)
      (fun e => { e with gridX := x, gridY := y }) st.enclosures
    { st with enclosures := l }

/-- `deleteEnclosure` / `deleteDecoration` / `deleteBuilding` dispatch of
the click-to-delete confirmation (app.js:2617-2635). -/
def deleteEntity (st : ZooState) (ty : ItemType) (id : String) : ZooState :=
  match ty with
  | .building => deleteBuilding id st
  | .decoration => deleteDecoration id st
  | .enclosure => deleteEnclosure id st

/-- What the mouse-down hit-test found for a move gesture: an enclosure
body (`e.target.closest('.enclosure')`, app.js:2300) or a
building/decoration element (`e.target.closest('.building')`,
app.js:2321). -/
inductive MoveHit
  | enclosure (id : String)
  | item (id : String)
  deriving DecidableEq, Repr

/-- The move branches of `handleGridMouseDown` (app.js:2299-2346): look the
hit entity up (buildings first, then decorations, for a `.building` hit)
and record the gesture-start position and pointer offset. -/
def moveOnDown (st : ZooState) (hit : MoveHit) (downGridX downGridY : Int) :
    Option MovingItem :=
  match hit with
  | .enclosure id =>
    match findEnc st.enclosures id with
    | some enclosure => some ⟨.enclosure, id, enclosure.gridX, enclosure.gridY,
        downGridX - enclosure.gridX, downGridY - enclosure.gridY⟩
    | none => none
  | .item id =>
    match findItem st.placedBuildings id with
    | some item => some ⟨.building, id, item.gridX, item.gridY,
        downGridX - item.gridX, downGridY - item.gridY⟩
    | none =>
      match findItem st.placedDecorations id with
      | some item => some ⟨.decoration, id, item.gridX, item.gridY,
          downGridX - item.gridX, downGridY - item.gridY⟩
      | none => none

/-- One pointer-move event during a move gesture: whether the raw pointer
is within the 50-pixel margin of the grid (app.js:2491-2492) and the
snapped grid cell from `getGridPoint`. -/
structure MoveEvent where
  isNearSVG : Bool
  gridX : Int
  gridY : Int
  deriving DecidableEq, Repr

/-- The moving branch of `handleGridMouseMove` (app.js:2480-2522): freeze
outside the margin; otherwise subtract the recorded offset, clamp the
whole rectangle into the grid, and write the position unconditionally. -/
def moveOnMove (mi : MovingItem) (st : ZooState) (ev : MoveEvent) : ZooState :=
  if !ev.isNearSVG then st
  else
    match entityRect st mi.type mi.id with
    | none => st
    | some r =>
      let newX := jsMax 0 (jsMin (ev.gridX - mi.offsetX) (GRID_SIZE - r.w))
      let newY := jsMax 0 (jsMin (ev.gridY - mi.offsetY) (GRID_SIZE - r.h))
      setPos st mi.type mi.id newX newY

/-- The move branch of `handleGridMouseUp` (app.js:2602-2672).
`distSquared` is the squared Euclidean pixel distance between the
down-event and up-event pointer positions; `distanceMoved < 5` is
equivalent to `distSquared < 25`.  A click (distance < 5) restores the
gesture-start position and offers deletion (`accept` = whether the
confirmation dialog's accept callback runs); a drag validates the final
position and reverts to the gesture-start position when it is out of
bounds or overlapping. -/
def moveOnUp (st : ZooState) (mi : MovingItem) (distSquared : Int)
    (accept : Bool) : ZooState :=
  if distSquared < 25 then
    let reverted := setPos st mi.type mi.id mi.originalX mi.originalY
    if accept then deleteEntity reverted mi.type mi.id else reverted
  else
    match entityRect st mi.type mi.id with
    | none => st
    | some r =>
      let fitsInGrid := decide (0 ≤ r.x) && decide (0 ≤ r.y) &&
        decide (r.x + r.w ≤ GRID_SIZE) && decide (r.y + r.h ≤ GRID_SIZE)
      let hasOverlap := checkOverlap st r.x r.y r.w r.h (some mi.id)
      if !fitsInGrid || hasOverlap then
        setPos st mi.type mi.id mi.originalX mi.originalY
      else st

/-- The set of near edges bound at resize entry
(`state.resizingEnclosure.edge`, app.js:2391-2396). -/
structure Edge where
  left : Bool
  right : Bool
  top : Bool
  bottom : Bool
  deriving DecidableEq, Repr

/-- `state.resizingEnclosure.originalData` (app.js:2288-2293): the full
geometry recorded at gesture start. -/
structure ResizeOriginal where
  gridX : Int
  gridY : Int
  width : Int
  height : Int
  deriving DecidableEq, Repr

/-- The resize entry of `handleGridMouseDown` (app.js:2283-2296): record
the enclosure's geometry at gesture start. -/
def resizeOnDown (st : ZooState) (id : String) : Option ResizeOriginal :=
  (findEnc st.enclosures id).map
    (fun e => ⟨e.gridX, e.gridY, e.width, e.height⟩)

/-- The candidate geometry computed by the resizing branch of
`handleGridMouseMove` (app.js:2432-2459): per-edge updates followed by the
constrain-to-grid clamps. -/
def resizeCandidate (enc : Enclosure) (edge : Edge) (pointX pointY : Int) : Rect :=
  let newX := enc.gridX
  let newY := enc.gridY
  let newWidth := enc.width
  let newHeight := enc.height
  let newWidth := if edge.right then jsMax 1 (pointX - enc.gridX + 1) else newWidth
  let newXW :=
    if edge.left then
      let oldRight := enc.gridX + enc.width
      let nx := jsMin pointX (oldRight - 1)
      (nx, oldRight - nx)
    else (newX, newWidth)
  let newX := newXW.1
  let newWidth := newXW.2
  let newHeight := if edge.bottom then jsMax 1 (pointY - enc.gridY + 1) else newHeight
  let newYH :=
    if edge.top then
      let oldBottom := enc.gridY + enc.height
      let ny := jsMin pointY (oldBottom - 1)
      (ny, oldBottom - ny)
    else (newY, newHeight)
  let newY := newYH.1
  let newHeight := newYH.2
  let newX := jsMax 0 (jsMin newX (GRID_SIZE - 1))
  let newY := jsMax 0 (jsMin newY (GRID_SIZE - 1))
  let newWidth := jsMax 1 (jsMin newWidth (GRID_SIZE - newX))
  let newHeight := jsMax 1 (jsMin newHeight (GRID_SIZE - newY))
  ⟨newX, newY, newWidth, newHeight⟩

/-- The resizing branch of `handleGridMouseMove` (app.js:2424-2477):
compute the clamped candidate, and commit all four geometry fields only
when the candidate does not overlap another entity; on overlap nothing is
modified. -/
def resizeOnMove (st : ZooState) (id : String) (edge : Edge)
    (pointX pointY : Int) : ZooState :=
  match findEnc st.enclosures id with
  | none => st
  | some enc =>
    let cand := resizeCandidate enc edge pointX pointY
    let hasOverlap := checkOverlap st cand.x cand.y cand.w cand.h (some enc.id)
    if !hasOverlap then
      let l := updateFirstBy (fun e => e.id == id)
        (fun e => { e with gridX := cand.x, gridY := cand.y,
                           width := cand.w, height := cand.h })
        st.enclosures
      { st with enclosures := l }
    else st

/-- The resize branch of `handleGridMouseUp` (app.js:2564-2600): a click
(squared pixel distance < 25, i.e. distance < 5) restores the geometry
recorded at gesture start and offers deletion; a drag finalizes the last
committed geometry (the store is not touched). -/
def resizeOnUp (st : ZooState) (id : String) (orig : ResizeOriginal)
    (distSquared : Int) (accept : Bool) : ZooState :=
  if distSquared < 25 then
    let l := updateFirstBy (fun e => e.id == id)
      (fun e => { e with gridX := orig.gridX, gridY := orig.gridY,
                         width := orig.width, height := orig.height })
      st.enclosures
    let restored := { st with enclosures := l }
    if accept then deleteEnclosure id restored else restored
  else st

/-- The drawing branch of `handleGridMouseUp` (app.js:2674-2699): the
axis-aligned rectangle spanning the start and current cells (inclusive),
committed through `addEnclosure` only when non-overlapping. -/
def drawOnUp (st : ZooState) (startX startY currentX currentY : Int) : ZooState :=
  let x := jsMin startX currentX
  let y := jsMin startY currentY
  let width := |currentX - startX| + 1
  let height := |currentY - startY| + 1
  let hasOverlap := checkOverlap st x y width height
  if decide (0 < width) && decide (0 < height) && !hasOverlap then
    addEnclosure x y width height st
  else st

/-- `loadFromURL()` (app.js:1530-1595), given the `z` query parameter:
decode, then place buildings and decorations through `addBuilding` /
`addDecoration` (no bounds, overlap or duplicate check), then push
enclosures directly (consuming an enclosure id even when the animal index
is unknown, as the source increments `nextEnclosureId` before the
`!animal` check).  Records whose catalog lookup fails are skipped.  A
record with a `NaN` coordinate would be placed with `NaN` geometry in the
source; the integer model skips it — the theorems below only apply
`loadFromURL` to strings over the base-36 alphabet, where no `NaN`
arises. -/
def loadFromURL (BUILDINGS DECORATIONS : List CatalogEntry)
    (ANIMALS : List Animal) (encoded : String) (st : ZooState) :
    ZooState × Bool :=
  if encoded.isEmpty then (st, false)
  else
    match decodeZooState encoded with
    | none => (st, false)
    | some data =>
      let st1 := data.buildings.foldl (fun s r =>
        match r.typeIndex with
        | some ti =>
          match BUILDINGS[ti]? with
          | some buildingDef =>
            match r.x, r.y with
            | some x, some y => addBuilding buildingDef x y s
            | _, _ => s
          | none => s
        | none => s) st
      let st2 := data.decorations.foldl (fun s r =>
        match r.typeIndex with
        | some ti =>
          match DECORATIONS[ti]? with
          | some decorationDef =>
            match r.x, r.y with
            | some x, some y => addDecoration decorationDef x y s
            | _, _ => s
          | none => s
        | none => s) st1
      let st3 := data.enclosures.foldl (fun s r =>
        let id := mkId "enclosure" s.nextEnclosureId
        let s := { s with nextEnclosureId := s.nextEnclosureId + 1 }
        match r.animalIndex with
        | some ai =>
          match ANIMALS[ai]? with
          | some animal =>
            match r.x, r.y, r.w, r.h with
            | some x, some y, some w, some h =>
              { s with enclosures := s.enclosures ++
                  [⟨id, x, y, w, h, animal.id⟩] }
            | _, _, _, _ => s
          | none => s
        | none => s) st2
      (st3, true)

/-! ## ValidationEngine -/

/-- The three-way display status of an enclosure (the CSS classes
`enclosure-invalid` / `enclosure-warning` / none, app.js:2904-2910). -/
inductive EnclosureStatus
  | invalid
  | warning
  | ok
  deriving DecidableEq, Repr

/-- `isValidPlacement` of `renderEnclosure` (app.js:2884-2888): in bounds
and not overlapping any other entity. -/
def placementValid (st : ZooState) (enc : Enclosure) : Bool :=
  let fitsInGrid := decide (0 ≤ enc.gridX) && decide (0 ≤ enc.gridY) &&
    decide (enc.gridX + enc.width ≤ GRID_SIZE) &&
    decide (enc.gridY + enc.height ≤ GRID_SIZE)
  let hasOverlap := checkOverlap st enc.gridX enc.gridY enc.width enc.height
    (some enc.id)
  fitsInGrid && !hasOverlap

/-- `meetsRequirements` of `renderEnclosure` (app.js:2890-2894):
`animal && area >= animal.minArea && perimeter >= animal.minPerimeter`. -/
def meetsRequirements (ANIMALS : List Animal) (enc : Enclosure) : Bool :=
  match ANIMALS.find? (fun a => a.id == enc.animal) with
  | some animal =>
    decide (enc.width * enc.height ≥ animal.minArea) &&
    decide (2 * (enc.width + enc.height) ≥ animal.minPerimeter)
  | none => false

/-- The displayed status (app.js:2904-2910): `enclosure-invalid` when the
placement is invalid, else `enclosure-warning` when the requirement is not
met, else plain (ok). -/
def enclosureStatus (ANIMALS : List Animal) (st : ZooState)
    (enc : Enclosure) : EnclosureStatus :=
  if !placementValid st enc then .invalid
  else if !meetsRequirements ANIMALS enc then .warning
  else .ok

/-! ## Reachability -/

/-- One interactive operation: animal selection, palette drop, draw-commit,
a whole move gesture (down, moves, up), a whole resize gesture, the
deletions, and the start-over reset.  Gestures are atomic here: the spec's
invariants are about the states between operations, transient mid-gesture
previews excepted. -/
inductive Step (BUILDINGS DECORATIONS : List CatalogEntry)
    (ANIMALS : List Animal) : ZooState → ZooState → Prop
  | select (s : ZooState) (a : Option String) :
      Step BUILDINGS DECORATIONS ANIMALS s { s with selectedAnimal := a }
  | drop (s : ZooState) (itemId : String) (gx gy : Int) :
      Step BUILDINGS DECORATIONS ANIMALS s
        (handleGridDrop BUILDINGS DECORATIONS itemId gx gy s)
  | draw (s : ZooState) (sx sy cx cy : Int) :
      Step BUILDINGS DECORATIONS ANIMALS s (drawOnUp s sx sy cx cy)
  | move (s : ZooState) (hit : MoveHit) (dx dy : Int) (mi : MovingItem)
      (pts : List MoveEvent) (distSquared : Int) (accept : Bool) :
      moveOnDown s hit dx dy = some mi →
      Step BUILDINGS DECORATIONS ANIMALS s
        (moveOnUp (pts.foldl (moveOnMove mi) s) mi distSquared accept)
  | resize (s : ZooState) (id : String) (edge : Edge) (orig : ResizeOriginal)
      (pts : List (Int × Int)) (distSquared : Int) (accept : Bool) :
      resizeOnDown s id = some orig →
      Step BUILDINGS DECORATIONS ANIMALS s
        (resizeOnUp
          (pts.foldl (fun st p => resizeOnMove st id edge p.1 p.2) s)
          id orig distSquared accept)
  | delB (s : ZooState) (id : String) :
      Step BUILDINGS DECORATIONS ANIMALS s (deleteBuilding id s)
  | delD (s : ZooState) (id : String) :
      Step BUILDINGS DECORATIONS ANIMALS s (deleteDecoration id s)
  | delE (s : ZooState) (id : String) :
      Step BUILDINGS DECORATIONS ANIMALS s (deleteEnclosure id s)
  | delRestrooms (s : ZooState) :
      Step BUILDINGS DECORATIONS ANIMALS s (deleteAllRestrooms s)
  | delDecoType (s : ZooState) (t : String) :
      Step BUILDINGS DECORATIONS ANIMALS s (deleteAllDecorationType t s)
  | delByAnimal (s : ZooState) (a : String) :
      Step BUILDINGS DECORATIONS ANIMALS s (deleteEnclosureByAnimal a s)
  | reset (s : ZooState) :
      Step BUILDINGS DECORATIONS ANIMALS s (startOver s)

/-- States reachable from the initial state through interactive operations
only. -/
inductive ReachableI (BUILDINGS DECORATIONS : List CatalogEntry)
    (ANIMALS : List Animal) : ZooState → Prop
  | init : ReachableI BUILDINGS DECORATIONS ANIMALS initialState
  | step {s s' : ZooState} :
      ReachableI BUILDINGS DECORATIONS ANIMALS s →
      Step BUILDINGS DECORATIONS ANIMALS s s' →
      ReachableI BUILDINGS DECORATIONS ANIMALS s'

/-- States reachable through interactive operations and `loadFromURL`
(the claim's full operation list, decode-and-load included). -/
inductive ReachableURL (BUILDINGS DECORATIONS : List CatalogEntry)
    (ANIMALS : List Animal) : ZooState → Prop
  | init : ReachableURL BUILDINGS DECORATIONS ANIMALS initialState
  | step {s s' : ZooState} :
      ReachableURL BUILDINGS DECORATIONS ANIMALS s →
      Step BUILDINGS DECORATIONS ANIMALS s s' →
      ReachableURL BUILDINGS DECORATIONS ANIMALS s'
  | load {s : ZooState} (encoded : String) :
      ReachableURL BUILDINGS DECORATIONS ANIMALS s →
      ReachableURL BUILDINGS DECORATIONS ANIMALS
        (loadFromURL BUILDINGS DECORATIONS ANIMALS encoded s).1

/-! ## Invariants -/

/-- Pairwise non-overlap over a list of (id, rectangle) entries. -/
def pairwiseNoOv : List (String × Rect) → Bool
  | [] => true
  | p :: rest => rest.all (fun q => !rectsOverlap p.2 q.2) && pairwiseNoOv rest

/-- All stored entity ids in scan order. -/
def allIds (st : ZooState) : List String := (entRects st).map Prod.fst

/-- Well-formedness of the externally loaded catalogs (the reference
`buildings.json` / `decorations.json` satisfy this: type ids are distinct
lowercase words without hyphens, and none is the literal `"enclosure"`). -/
def CatalogWF (BUILDINGS DECORATIONS : List CatalogEntry) : Prop :=
  ((BUILDINGS ++ DECORATIONS).map CatalogEntry.id).Nodup ∧
  ∀ e ∈ BUILDINGS ++ DECORATIONS, '-' ∉ e.id.data ∧ e.id ≠ "enclosure"

/-- Structure of the instance ids: every stored id is
`typeId ++ "-" ++ counter` with the counter below the respective next-id
counter, and all ids are distinct. -/
def IdInv (BUILDINGS DECORATIONS : List CatalogEntry) (s : ZooState) : Prop :=
  (∀ b ∈ s.placedBuildings, ∃ t k, t ∈ BUILDINGS.map CatalogEntry.id ∧
    k < s.nextBuildingId ∧ b.id = mkId t k) ∧
  (∀ d ∈ s.placedDecorations, ∃ t k, t ∈ DECORATIONS.map CatalogEntry.id ∧
    k < s.nextDecorationId ∧ d.id = mkId t k) ∧
  (∀ e ∈ s.enclosures, ∃ k, k < s.nextEnclosureId ∧ e.id = mkId "enclosure" k) ∧
  (allIds s).Nodup

/-- C5's uniqueness: at most one enclosure per occupant id, and at most
one placed building instance per non-`"restroom"` catalog entry (an
instance of entry `t` being a placed building whose id starts with
`t ++ "-"`). -/
def UniqueInv (BUILDINGS : List CatalogEntry) (s : ZooState) : Prop :=
  (s.enclosures.map Enclosure.animal).Nodup ∧
  ∀ t ∈ BUILDINGS, t.id ≠ "restroom" →
    ((s.placedBuildings.map PlacedItem.id).countP
      (fun i => (t.id ++ "-").data.isPrefixOf i.data)) ≤ 1

/-- The combined inductive invariant. -/
def Inv (BUILDINGS DECORATIONS : List CatalogEntry) (s : ZooState) : Prop :=
  pairwiseNoOv (entRects s) = true ∧
  IdInv BUILDINGS DECORATIONS s ∧
  UniqueInv BUILDINGS s

/-- A three-entry building catalog for the concrete encoding scenario of
the spec's example (a): the entry at catalog index 2 is 3 wide and 2 high. -/
def catalogC9 : List CatalogEntry :=
  [⟨"giftshop", 2, 2⟩, ⟨"restroom", 1, 1⟩, ⟨"cafe", 3, 2⟩]

/-- A state holding exactly one placed building: an instance of catalog
index 2 of `catalogC9` at grid position (5, 5). -/
def stateC9 : ZooState :=
  { initialState with placedBuildings := [⟨mkId "cafe" 1, 3, 2, 5, 5⟩] }

/-- Two 2×2 buildings for the concrete move-revert scenario. -/
def stateC3 : ZooState :=
  { initialState with
    placedBuildings := [⟨mkId "giftshop" 1, 2, 2, 0, 0⟩,
                        ⟨mkId "cafe" 1, 2, 2, 5, 5⟩]
    nextBuildingId := 2 }

/-- The moving-item record produced by pressing on the first building of
`stateC3` at its corner cell. -/
def miC3 : MovingItem := ⟨.building, mkId "giftshop" 1, 0, 0, 0, 0⟩

/-- Two side-by-side enclosures for the concrete resize-reject scenario. -/
def stateC4 : ZooState :=
  { initialState with
    enclosures := [⟨mkId "enclosure" 1, 0, 0, 2, 2, "lion"⟩,
                   ⟨mkId "enclosure" 2, 3, 0, 2, 2, "tiger"⟩]
    nextEnclosureId := 3 }

/-- The animal catalog for the concrete validation scenario: a lion with
minimum perimeter 14 and minimum area 12. -/
def animalsC8 : List Animal := [⟨"lion", 14, 12⟩]

/-- The same catalog with the minimum area raised to 20. -/
def animalsC8w : List Animal := [⟨"lion", 14, 20⟩]

/-- A lion enclosure, 4 wide and 3 high at the origin. -/
def encC8 : Enclosure := ⟨mkId "enclosure" 1, 0, 0, 4, 3, "lion"⟩

/-- A state holding only `encC8`. -/
def stateC8 : ZooState :=
  { initialState with enclosures := [encC8], nextEnclosureId := 2 }

/-- The field bounds under which a building/decoration record round-trips:
the catalog index resolves (`findIndex` ≥ 0) and every encoded field is a
single base-36 digit (< 36). -/
def itemFieldsOk (catalog : List CatalogEntry) (b : PlacedItem) : Prop :=
  0 ≤ findIndexJS (fun entry => entry.id == typeIdOf b.id) catalog ∧
  findIndexJS (fun entry => entry.id == typeIdOf b.id) catalog < 36 ∧
  0 ≤ b.gridX ∧ b.gridX < 36 ∧ 0 ≤ b.gridY ∧ b.gridY < 36

/-- The field bounds under which an enclosure record round-trips. -/
def enclosureFieldsOk (animals : List Animal) (e : Enclosure) : Prop :=
  0 ≤ findIndexJS (fun a => a.id == e.animal) animals ∧
  findIndexJS (fun a => a.id == e.animal) animals < 36 ∧
  0 ≤ e.gridX ∧ e.gridX < 36 ∧ 0 ≤ e.gridY ∧ e.gridY < 36 ∧
  0 ≤ e.width ∧ e.width < 36 ∧ 0 ≤ e.height ∧ e.height < 36

instance (catalog : List CatalogEntry) (b : PlacedItem) :
    Decidable (itemFieldsOk catalog b) := by
  unfold itemFieldsOk
  infer_instance

instance (animals : List Animal) (e : Enclosure) :
    Decidable (enclosureFieldsOk animals e) := by
  unfold enclosureFieldsOk
  infer_instance

/-- The decoded record carrying a placed item's (catalogIndex, x, y)
tuple. -/
def decodedOfItem (catalog : List CatalogEntry) (b : PlacedItem) : DecodedItem :=
  ⟨some (findIndexJS (fun entry => entry.id == typeIdOf b.id) catalog).toNat,
   some b.gridX.toNat, some b.gridY.toNat⟩

/-- The decoded record carrying an enclosure's (occupantIndex, x, y, w, h)
tuple. -/
def decodedOfEnclosure (animals : List Animal) (e : Enclosure) : DecodedEnclosure :=
  ⟨some (findIndexJS (fun a => a.id == e.animal) animals).toNat,
   some e.gridX.toNat, some e.gridY.toNat,
   some e.width.toNat, some e.height.toNat⟩

/-! # Theorems -/

theorem rectsOverlap_iff (a b : Rect) :
    rectsOverlap a b = true ↔
      a.x < b.x + b.w ∧ b.x < a.x + a.w ∧ a.y < b.y + b.h ∧ b.y < a.y + a.h := by
  simp only [rectsOverlap, Bool.not_eq_true', Bool.or_eq_false_iff,
    decide_eq_false_iff_not, not_le, ge_iff_le]
  omega

theorem rectsOverlap_comm (a b : Rect) :
    rectsOverlap a b = rectsOverlap b a := by
  by_cases h : rectsOverlap a b = true
  · have h' := (rectsOverlap_iff a b).mp h
    exact h.trans ((rectsOverlap_iff b a).mpr ⟨h'.2.1, h'.1, h'.2.2.2, h'.2.2.1⟩).symm
  · rw [Bool.not_eq_true] at h
    rw [h]
    by_contra hba
    have hba' := (rectsOverlap_iff b a).mp (Bool.not_eq_false _ |>.mp (Ne.symm hba))
    have := (rectsOverlap_iff a b).mpr ⟨hba'.2.1, hba'.1, hba'.2.2.2, hba'.2.2.1⟩
    rw [h] at this
    exact Bool.false_ne_true this

theorem checkOverlap_eq_true_iff (st : ZooState) (gridX gridY width height : Int)
    (excludeId : Option String) :
    checkOverlap st gridX gridY width height excludeId = true ↔
      ∃ p ∈ entRects st, idMatches p.1 excludeId = false ∧
        rectsOverlap ⟨gridX, gridY, width, height⟩ p.2 = true := by
  simp only [checkOverlap, entRects, Bool.or_eq_true, List.any_eq_true,
    Bool.and_eq_true, Bool.not_eq_true', List.mem_append, List.mem_map]
  constructor
  · rintro ((⟨b, hb, hid, hov⟩ | ⟨d, hd, hid, hov⟩) | ⟨e, he, hid, hov⟩)
    · exact ⟨_, Or.inl (Or.inl ⟨b, hb, rfl⟩), hid, hov⟩
    · exact ⟨_, Or.inl (Or.inr ⟨d, hd, rfl⟩), hid, hov⟩
    · exact ⟨_, Or.inr ⟨e, he, rfl⟩, hid, hov⟩
  · rintro ⟨p, (⟨b, hb, rfl⟩ | ⟨d, hd, rfl⟩) | ⟨e, he, rfl⟩, hid, hov⟩
    · exact Or.inl (Or.inl ⟨b, hb, hid, hov⟩)
    · exact Or.inl (Or.inr ⟨d, hd, hid, hov⟩)
    · exact Or.inr ⟨e, he, hid, hov⟩

theorem checkOverlap_eq_false_iff (st : ZooState) (gridX gridY width height : Int)
    (excludeId : Option String) :
    checkOverlap st gridX gridY width height excludeId = false ↔
      ∀ p ∈ entRects st, idMatches p.1 excludeId = false →
        rectsOverlap ⟨gridX, gridY, width, height⟩ p.2 = false := by
  rw [← Bool.not_eq_true, checkOverlap_eq_true_iff]
  constructor
  · intro h p hp hid
    rcases Bool.eq_false_or_eq_true (rectsOverlap ⟨gridX, gridY, width, height⟩ p.2) with hov | hov
    · exact absurd ⟨p, hp, hid, hov⟩ h
    · exact hov
  · rintro h ⟨p, hp, hid, hov⟩
    rw [h p hp hid] at hov
    exact Bool.false_ne_true hov

/-- C7: the per-pair overlap test is the strict-inequality box test, with
edge-touching not counted, and `checkOverlap` (the store's overlap query)
is true iff some stored entity other than the excluded one overlaps the
candidate rectangle in that sense. -/
theorem checkOverlap_correct (a b : Rect) (_hw : 0 < a.w) (_hh : 0 < a.h)
    (_hw' : 0 < b.w) (_hh' : 0 < b.h) :
    (rectsOverlap a b = true ↔
      a.x < b.x + b.w ∧ b.x < a.x + a.w ∧ a.y < b.y + b.h ∧ b.y < a.y + a.h) ∧
    (a.x + a.w = b.x → rectsOverlap a b = false) ∧
    (∀ (st : ZooState) (x y w h : Int) (excludeId : Option String),
      checkOverlap st x y w h excludeId = true ↔
        ∃ p ∈ entRects st, idMatches p.1 excludeId = false ∧
          rectsOverlap ⟨x, y, w, h⟩ p.2 = true) := by
  refine ⟨rectsOverlap_iff a b, ?_, checkOverlap_eq_true_iff⟩
  intro hedge
  rw [← Bool.not_eq_true, rectsOverlap_iff]
  push_neg
  intro h1 h2
  omega

theorem checkOverlap_correct_witness :
    (0 : Int) < 2 ∧ (0 : Int) < 3 ∧ (0 : Int) < 4 ∧ (0 : Int) < 5 ∧
    (rectsOverlap ⟨0, 0, 2, 3⟩ ⟨1, 1, 4, 5⟩ = true ↔
      (0 : Int) < 1 + 4 ∧ (1 : Int) < 0 + 2 ∧ (0 : Int) < 1 + 5 ∧ (1 : Int) < 0 + 3) := by
  refine ⟨by decide, by decide, by decide, by decide, ?_⟩
  exact (checkOverlap_correct ⟨0, 0, 2, 3⟩ ⟨1, 1, 4, 5⟩
    (by decide) (by decide) (by decide) (by decide)).1

/-- C9 counterexample: a state containing exactly one placed building of
catalog index 2 at (5, 5) encodes to `"255"`, not `"253"`: the record is
the three base-36 digits of 2, 5, 5, so the spec's literal `"253"` is
wrong on its own reading. -/
theorem encode_example_ne_253 :
    (stateC9.placedBuildings.map (fun b =>
        (findIndexJS (fun entry => entry.id == typeIdOf b.id) catalogC9,
         b.gridX, b.gridY)) = [(2, 5, 5)]) ∧
    encodeZooState catalogC9 [] [] stateC9 ≠ "253" := by
  constructor
  · decide
  · intro h
    exact absurd ((by decide : encodeZooState catalogC9 [] [] stateC9 = "255") ▸ h)
      (by decide)

/-- C9 (amended): encoding a state containing exactly one placed building
of catalog index 2 at grid position (5, 5) produces `"255"` — the
base-36 digits of 2, 5, 5 per the record format `[catalogIndex][x][y]` —
as the buildings section (and whole string) of the encoded output. -/
theorem encode_example_eq_255 :
    encodeZooState catalogC9 [] [] stateC9 = "255" ∧
    (splitOnDot (encodeZooState catalogC9 [] [] stateC9).data).getD 0 []
      = ['2', '5', '5'] := by
  constructor <;> decide

/-- C10: `decodeZooState` always returns a structure (the `catch` branch
returning `null` is unreachable — every operation in the body is total in
JavaScript), and characters outside the base-36 alphabet yield records
with `NaN` (`none`) fields rather than a decoder-level failure: `"0!5"`
decodes to one building record whose `x` field is `NaN`. -/
theorem decodeZooState_total_nan :
    (∀ s : String, (decodeZooState s).isSome = true) ∧
    decodeZooState "0!5" = some ⟨[⟨some 0, none, some 5⟩], [], []⟩ := by
  exact ⟨fun s => rfl, by decide⟩

/-- C4: if the clamped resize candidate overlaps another stored entity,
the resize-move handler leaves the state — in particular the enclosure's
four geometry fields — exactly as it was before the candidate was
evaluated. -/
theorem resize_reject_unchanged (st : ZooState) (id : String) (edge : Edge)
    (px py : Int) (enc : Enclosure)
    (hfind : findEnc st.enclosures id = some enc)
    (hov : checkOverlap st (resizeCandidate enc edge px py).x
      (resizeCandidate enc edge px py).y (resizeCandidate enc edge px py).w
      (resizeCandidate enc edge px py).h (some enc.id) = true) :
    resizeOnMove st id edge px py = st := by
  unfold resizeOnMove
  rw [hfind]
  simp [hov]

theorem resize_reject_unchanged_witness :
    findEnc stateC4.enclosures "enclosure-1" =
      some ⟨mkId "enclosure" 1, 0, 0, 2, 2, "lion"⟩ ∧
    checkOverlap stateC4
      (resizeCandidate ⟨mkId "enclosure" 1, 0, 0, 2, 2, "lion"⟩
        ⟨false, true, false, false⟩ 3 0).x
      (resizeCandidate ⟨mkId "enclosure" 1, 0, 0, 2, 2, "lion"⟩
        ⟨false, true, false, false⟩ 3 0).y
      (resizeCandidate ⟨mkId "enclosure" 1, 0, 0, 2, 2, "lion"⟩
        ⟨false, true, false, false⟩ 3 0).w
      (resizeCandidate ⟨mkId "enclosure" 1, 0, 0, 2, 2, "lion"⟩
        ⟨false, true, false, false⟩ 3 0).h
      (some (mkId "enclosure" 1)) = true ∧
    resizeOnMove stateC4 "enclosure-1" ⟨false, true, false, false⟩ 3 0 = stateC4 := by
  refine ⟨by decide, by decide, ?_⟩
  exact resize_reject_unchanged stateC4 "enclosure-1" ⟨false, true, false, false⟩
    3 0 ⟨mkId "enclosure" 1, 0, 0, 2, 2, "lion"⟩ (by decide) (by decide)

/-- C8: for an enclosure whose occupant is found in the animal catalog,
the requirement test is `area ≥ minArea && perimeter ≥ minPerimeter` with
`area = w*h` and `perimeter = 2*(w+h)`, and the three-way display status
is mutually exclusive with priority invalid > warning > ok. -/
theorem enclosureStatus_correct (ANIMALS : List Animal) (st : ZooState)
    (enc : Enclosure) (animal : Animal)
    (hfind : ANIMALS.find? (fun a => a.id == enc.animal) = some animal) :
    (meetsRequirements ANIMALS enc =
      (decide (enc.width * enc.height ≥ animal.minArea) &&
       decide (2 * (enc.width + enc.height) ≥ animal.minPerimeter))) ∧
    (enclosureStatus ANIMALS st enc = .invalid ↔ placementValid st enc = false) ∧
    (enclosureStatus ANIMALS st enc = .warning ↔
      placementValid st enc = true ∧ meetsRequirements ANIMALS enc = false) ∧
    (enclosureStatus ANIMALS st enc = .ok ↔
      placementValid st enc = true ∧ meetsRequirements ANIMALS enc = true) := by
  refine ⟨by simp [meetsRequirements, hfind], ?_, ?_, ?_⟩ <;>
    unfold enclosureStatus <;>
    cases hpv : placementValid st enc <;>
    cases hmr : meetsRequirements ANIMALS enc <;>
    simp [hpv, hmr]

theorem enclosureStatus_correct_witness :
    (animalsC8.find? (fun a => a.id == encC8.animal) = some ⟨"lion", 14, 12⟩) ∧
    (enclosureStatus animalsC8 stateC8 encC8 = .ok ↔
      placementValid stateC8 encC8 = true ∧
      meetsRequirements animalsC8 encC8 = true) ∧
    enclosureStatus animalsC8 stateC8 encC8 = .ok ∧
    enclosureStatus animalsC8w stateC8 encC8 = .warning := by
  exact ⟨by decide,
    (enclosureStatus_correct animalsC8 stateC8 encC8 ⟨"lion", 14, 12⟩
      (by decide)).2.2.2,
    by decide, by decide⟩

/-! ### updateFirstBy: the functional rendering of in-place mutation -/

theorem updateFirstBy_decomp {α : Type} (p : α → Bool) (f : α → α)
    (l : List α) (a : α) (h : l.find? p = some a) :
    ∃ l₁ l₂, l = l₁ ++ a :: l₂ ∧ (∀ x ∈ l₁, p x = false) ∧
      updateFirstBy p f l = l₁ ++ f a :: l₂ := by
  induction l with
  | nil => simp at h
  | cons b rest ih =>
    by_cases hb : p b
    · rw [List.find?_cons_of_pos _ hb, Option.some_inj] at h
      subst h
      exact ⟨[], rest, rfl, by simp, by simp [updateFirstBy, hb]⟩
    · rw [List.find?_cons_of_neg _ (by simp [hb])] at h
      obtain ⟨l₁, l₂, hl, hpl, hupd⟩ := ih h
      refine ⟨b :: l₁, l₂, by simp [hl], ?_, ?_⟩
      · intro x hx
        rcases List.mem_cons.mp hx with rfl | hx
        · exact Bool.eq_false_iff.mpr hb
        · exact hpl x hx
      · simp [updateFirstBy, hb, hupd]

theorem find?_updateFirstBy {α : Type} (p : α → Bool) (f : α → α)
    (l : List α) (hpf : ∀ x, p (f x) = p x) :
    (updateFirstBy p f l).find? p = (l.find? p).map f := by
  induction l with
  | nil => rfl
  | cons b rest ih =>
    by_cases hb : p b
    · simp [updateFirstBy, hb, List.find?_cons_of_pos, hpf]
    · rw [show updateFirstBy p f (b :: rest) = b :: updateFirstBy p f rest from by
        simp [updateFirstBy, hb]]
      rw [List.find?_cons_of_neg _ (by simp [hb]),
        List.find?_cons_of_neg _ (by simp [hb]), ih]

theorem updateFirstBy_comp {α : Type} (p : α → Bool) (f g : α → α)
    (l : List α) (hpf : ∀ x, p (f x) = p x) :
    updateFirstBy p g (updateFirstBy p f l) =
      updateFirstBy p (fun x => g (f x)) l := by
  induction l with
  | nil => rfl
  | cons b rest ih =>
    by_cases hb : p b
    · simp [updateFirstBy, hb, hpf]
    · simp [updateFirstBy, hb, ih]

theorem updateFirstBy_congr {α : Type} (p : α → Bool) (f g : α → α)
    (l : List α) (h : ∀ x, f x = g x) :
    updateFirstBy p f l = updateFirstBy p g l := by
  induction l with
  | nil => rfl
  | cons b rest ih =>
    by_cases hb : p b <;> simp [updateFirstBy, hb, h, ih]

theorem updateFirstBy_self {α : Type} (p : α → Bool) (f : α → α)
    (l : List α) (a : α) (h : l.find? p = some a) (hfa : f a = a) :
    updateFirstBy p f l = l := by
  obtain ⟨l₁, l₂, hl, _, hupd⟩ := updateFirstBy_decomp p f l a h
  rw [hupd, hfa, hl]

theorem updateFirstBy_of_find?_none {α : Type} (p : α → Bool) (f : α → α)
    (l : List α) (h : l.find? p = none) :
    updateFirstBy p f l = l := by
  induction l with
  | nil => rfl
  | cons b rest ih =>
    by_cases hb : p b
    · rw [List.find?_cons_of_pos _ hb] at h
      exact absurd h (by simp)
    · rw [List.find?_cons_of_neg _ (by simp [hb])] at h
      simp [updateFirstBy, hb, ih h]

theorem map_updateFirstBy {α β : Type} (p : α → Bool) (f : α → α)
    (g : α → β) (l : List α) (hg : ∀ x, g (f x) = g x) :
    (updateFirstBy p f l).map g = l.map g := by
  induction l with
  | nil => rfl
  | cons b rest ih =>
    by_cases hb : p b <;> simp [updateFirstBy, hb, hg, ih]

/-! ### setPos and entityRect -/

theorem entityRect_setPos (st : ZooState) (ty : ItemType) (id : String)
    (x y : Int) :
    entityRect (setPos st ty id x y) ty id =
      (entityRect st ty id).map (fun r => ⟨x, y, r.w, r.h⟩) := by
  cases ty
  case building =>
    simp only [entityRect, setPos, findItem]
    rw [find?_updateFirstBy (fun b => b.id == id)
      (fun b => { b with gridX := x, gridY := y }) st.placedBuildings
      (fun _ => rfl), Option.map_map, Option.map_map]
    rfl
  case decoration =>
    simp only [entityRect, setPos, findItem]
    rw [find?_updateFirstBy (fun d => d.id == id)
      (fun d => { d with gridX := x, gridY := y }) st.placedDecorations
      (fun _ => rfl), Option.map_map, Option.map_map]
    rfl
  case enclosure =>
    simp only [entityRect, setPos, findEnc]
    rw [find?_updateFirstBy (fun e => e.id == id)
      (fun e => { e with gridX := x, gridY := y }) st.enclosures
      (fun _ => rfl), Option.map_map, Option.map_map]
    rfl

theorem setPos_setPos (st : ZooState) (ty : ItemType) (id : String)
    (x y x' y' : Int) :
    setPos (setPos st ty id x y) ty id x' y' = setPos st ty id x' y' := by
  cases ty
  case building =>
    simp only [setPos]
    rw [updateFirstBy_comp (fun b => b.id == id)
      (fun b => { b with gridX := x, gridY := y })
      (fun b => { b with gridX := x', gridY := y' }) st.placedBuildings
      (fun _ => rfl)]
  case decoration =>
    simp only [setPos]
    rw [updateFirstBy_comp (fun d => d.id == id)
      (fun d => { d with gridX := x, gridY := y })
      (fun d => { d with gridX := x', gridY := y' }) st.placedDecorations
      (fun _ => rfl)]
  case enclosure =>
    simp only [setPos]
    rw [updateFirstBy_comp (fun e => e.id == id)
      (fun e => { e with gridX := x, gridY := y })
      (fun e => { e with gridX := x', gridY := y' }) st.enclosures
      (fun _ => rfl)]

theorem setPos_self (st : ZooState) (ty : ItemType) (id : String) (r : Rect)
    (h : entityRect st ty id = some r) :
    setPos st ty id r.x r.y = st := by
  cases ty <;> simp only [entityRect, setPos, findItem, findEnc,
    Option.map_eq_some'] at h ⊢
  · obtain ⟨b, hb, hr⟩ := h
    have : ZooState.placedBuildings st =
        updateFirstBy (fun x => x.id == id)
          (fun x => { x with gridX := r.x, gridY := r.y }) st.placedBuildings := by
      rw [updateFirstBy_self _ _ _ b hb (by cases b; cases hr; rfl)]
    rw [← this]
  · obtain ⟨d, hd, hr⟩ := h
    have : ZooState.placedDecorations st =
        updateFirstBy (fun x => x.id == id)
          (fun x => { x with gridX := r.x, gridY := r.y }) st.placedDecorations := by
      rw [updateFirstBy_self _ _ _ d hd (by cases d; cases hr; rfl)]
    rw [← this]
  · obtain ⟨e, he, hr⟩ := h
    have : ZooState.enclosures st =
        updateFirstBy (fun x => x.id == id)
          (fun x => { x with gridX := r.x, gridY := r.y }) st.enclosures := by
      rw [updateFirstBy_self _ _ _ e he (by cases e; cases hr; rfl)]
    rw [← this]

/-! ### Move and resize gestures -/

theorem moveOnMove_cases (mi : MovingItem) (st : ZooState) (ev : MoveEvent) :
    moveOnMove mi st ev = st ∨
    ∃ x y, moveOnMove mi st ev = setPos st mi.type mi.id x y := by
  unfold moveOnMove
  cases hb : ev.isNearSVG
  · exact Or.inl rfl
  · cases her : entityRect st mi.type mi.id
    · exact Or.inl rfl
    · exact Or.inr ⟨_, _, rfl⟩

theorem foldl_moveOnMove_cases (mi : MovingItem) (pts : List MoveEvent)
    (st : ZooState) :
    pts.foldl (moveOnMove mi) st = st ∨
    ∃ x y, pts.foldl (moveOnMove mi) st = setPos st mi.type mi.id x y := by
  induction pts generalizing st with
  | nil => exact Or.inl rfl
  | cons ev rest ih =>
    simp only [List.foldl_cons]
    rcases moveOnMove_cases mi st ev with h | ⟨x, y, h⟩
    · rw [h]; exact ih st
    · rw [h]
      rcases ih (setPos st mi.type mi.id x y) with h2 | ⟨x', y', h2⟩
      · rw [h2]; exact Or.inr ⟨x, y, rfl⟩
      · rw [h2, setPos_setPos]; exact Or.inr ⟨x', y', rfl⟩

theorem moveOnDown_entityRect (st : ZooState) (hit : MoveHit) (dx dy : Int)
    (mi : MovingItem) (h : moveOnDown st hit dx dy = some mi) :
    ∃ r₀, entityRect st mi.type mi.id = some r₀ ∧
      r₀.x = mi.originalX ∧ r₀.y = mi.originalY := by
  cases hit with
  | enclosure id =>
    simp only [moveOnDown] at h
    cases hfe : findEnc st.enclosures id with
    | none => rw [hfe] at h; exact absurd h (by simp)
    | some enc =>
      rw [hfe, Option.some_inj] at h
      subst h
      exact ⟨⟨enc.gridX, enc.gridY, enc.width, enc.height⟩,
        by simp [entityRect, hfe], rfl, rfl⟩
  | item id =>
    simp only [moveOnDown] at h
    cases hfb : findItem st.placedBuildings id with
    | some it =>
      rw [hfb, Option.some_inj] at h
      subst h
      exact ⟨⟨it.gridX, it.gridY, it.width, it.height⟩,
        by simp [entityRect, hfb], rfl, rfl⟩
    | none =>
      rw [hfb] at h
      cases hfd : findItem st.placedDecorations id with
      | none => rw [hfd] at h; exact absurd h (by simp)
      | some it =>
        rw [hfd, Option.some_inj] at h
        subst h
        exact ⟨⟨it.gridX, it.gridY, it.width, it.height⟩,
          by simp [entityRect, hfd], rfl, rfl⟩

theorem find?_filter_not {α : Type} (p : α → Bool) (l : List α) :
    (l.filter (fun a => !(p a))).find? p = none := by
  rw [List.find?_eq_none]
  intro a ha
  have := (List.mem_filter.mp ha).2
  simp only [Bool.not_eq_true'] at this
  simp [this]

theorem entityRect_deleteEntity (st : ZooState) (ty : ItemType) (id : String) :
    entityRect (deleteEntity st ty id) ty id = none := by
  cases ty <;>
    simp [entityRect, deleteEntity, deleteBuilding, deleteDecoration,
      deleteEnclosure, findItem, findEnc, find?_filter_not]

/-- The drag branch of `moveOnUp` (distance ≥ 5), written as a single
conditional on the final rectangle. -/
theorem moveOnUp_of_ge (st : ZooState) (mi : MovingItem) (distSquared : Int)
    (accept : Bool) (r : Rect) (h : 25 ≤ distSquared)
    (hr : entityRect st mi.type mi.id = some r) :
    moveOnUp st mi distSquared accept =
      if ((!(decide (0 ≤ r.x) && decide (0 ≤ r.y) &&
            decide (r.x + r.w ≤ GRID_SIZE) && decide (r.y + r.h ≤ GRID_SIZE))) ||
          checkOverlap st r.x r.y r.w r.h (some mi.id)) = true
      then setPos st mi.type mi.id mi.originalX mi.originalY
      else st := by
  unfold moveOnUp
  rw [if_neg (by omega), hr]

/-- C3: a move gesture released at distance ≥ 5 pixels commits the dragged
position exactly when the final rectangle is in bounds and
non-overlapping; otherwise the entity's position reverts to the values
recorded at gesture start (`originalX`, `originalY`, which equal the
entity's position when the gesture began). -/
theorem move_revert_law (st : ZooState) (hit : MoveHit) (dx dy : Int)
    (mi : MovingItem) (pts : List MoveEvent) (distSquared : Int) (accept : Bool)
    (hdown : moveOnDown st hit dx dy = some mi)
    (hdist : 25 ≤ distSquared) :
    ∃ r₀ r, entityRect st mi.type mi.id = some r₀ ∧
      r₀.x = mi.originalX ∧ r₀.y = mi.originalY ∧
      entityRect (pts.foldl (moveOnMove mi) st) mi.type mi.id = some r ∧
      entityRect (moveOnUp (pts.foldl (moveOnMove mi) st) mi distSquared accept)
          mi.type mi.id =
        some (if (0 ≤ r.x ∧ 0 ≤ r.y ∧ r.x + r.w ≤ GRID_SIZE ∧
                  r.y + r.h ≤ GRID_SIZE) ∧
                 checkOverlap (pts.foldl (moveOnMove mi) st) r.x r.y r.w r.h
                   (some mi.id) = false
              then r
              else ⟨mi.originalX, mi.originalY, r.w, r.h⟩) := by
  obtain ⟨r₀, hr₀, hx₀, hy₀⟩ := moveOnDown_entityRect st hit dx dy mi hdown
  have hstM : ∃ r, entityRect (pts.foldl (moveOnMove mi) st) mi.type mi.id = some r := by
    rcases foldl_moveOnMove_cases mi pts st with h | ⟨x, y, h⟩
    · exact ⟨r₀, by rw [h, hr₀]⟩
    · exact ⟨⟨x, y, r₀.w, r₀.h⟩, by rw [h, entityRect_setPos, hr₀]; rfl⟩
  obtain ⟨r, hr⟩ := hstM
  refine ⟨r₀, r, hr₀, hx₀, hy₀, hr, ?_⟩
  rw [moveOnUp_of_ge _ _ _ accept r hdist hr]
  by_cases hcond : (0 ≤ r.x ∧ 0 ≤ r.y ∧ r.x + r.w ≤ GRID_SIZE ∧
      r.y + r.h ≤ GRID_SIZE) ∧
      checkOverlap (pts.foldl (moveOnMove mi) st) r.x r.y r.w r.h
        (some mi.id) = false
  · obtain ⟨⟨h1, h2, h3, h4⟩, hov⟩ := hcond
    have hc : (0 ≤ r.x ∧ 0 ≤ r.y ∧ r.x + r.w ≤ GRID_SIZE ∧
        r.y + r.h ≤ GRID_SIZE) ∧
        checkOverlap (pts.foldl (moveOnMove mi) st) r.x r.y r.w r.h
          (some mi.id) = false := ⟨⟨h1, h2, h3, h4⟩, hov⟩
    have hb : ((!(decide (0 ≤ r.x) && decide (0 ≤ r.y) &&
        decide (r.x + r.w ≤ GRID_SIZE) && decide (r.y + r.h ≤ GRID_SIZE))) ||
        checkOverlap (pts.foldl (moveOnMove mi) st) r.x r.y r.w r.h
          (some mi.id)) = false := by
      simp [h1, h2, h3, h4, hov]
    have hbneg : ¬(((!(decide (0 ≤ r.x) && decide (0 ≤ r.y) &&
        decide (r.x + r.w ≤ GRID_SIZE) && decide (r.y + r.h ≤ GRID_SIZE))) ||
        checkOverlap (pts.foldl (moveOnMove mi) st) r.x r.y r.w r.h
          (some mi.id)) = true) := by rw [hb]; exact Bool.false_ne_true
    rw [if_neg hbneg]
    have hite : (if (0 ≤ r.x ∧ 0 ≤ r.y ∧ r.x + r.w ≤ GRID_SIZE ∧
        r.y + r.h ≤ GRID_SIZE) ∧
        checkOverlap (pts.foldl (moveOnMove mi) st) r.x r.y r.w r.h
          (some mi.id) = false
      then r else (⟨mi.originalX, mi.originalY, r.w, r.h⟩ : Rect)) = r := if_pos hc
    rw [hite]
    exact hr
  · have hb : ((!(decide (0 ≤ r.x) && decide (0 ≤ r.y) &&
        decide (r.x + r.w ≤ GRID_SIZE) && decide (r.y + r.h ≤ GRID_SIZE))) ||
        checkOverlap (pts.foldl (moveOnMove mi) st) r.x r.y r.w r.h
          (some mi.id)) = true := by
      rcases Bool.eq_false_or_eq_true (checkOverlap
        (pts.foldl (moveOnMove mi) st) r.x r.y r.w r.h (some mi.id)) with hov | hov
      · simp [hov]
      · by_cases hfit : 0 ≤ r.x ∧ 0 ≤ r.y ∧ r.x + r.w ≤ GRID_SIZE ∧
            r.y + r.h ≤ GRID_SIZE
        · exact absurd ⟨hfit, hov⟩ hcond
        · have hfb : (decide (0 ≤ r.x) && decide (0 ≤ r.y) &&
              decide (r.x + r.w ≤ GRID_SIZE) &&
              decide (r.y + r.h ≤ GRID_SIZE)) = false := by
            rcases Bool.eq_false_or_eq_true (decide (0 ≤ r.x) && decide (0 ≤ r.y) &&
              decide (r.x + r.w ≤ GRID_SIZE) && decide (r.y + r.h ≤ GRID_SIZE))
              with hfb | hfb
            · simp only [Bool.and_eq_true, decide_eq_true_eq] at hfb
              exact absurd ⟨hfb.1.1.1, hfb.1.1.2, hfb.1.2, hfb.2⟩ hfit
            · exact hfb
          simp [hfb]
    rw [if_pos hb]
    have hite : (if (0 ≤ r.x ∧ 0 ≤ r.y ∧ r.x + r.w ≤ GRID_SIZE ∧
        r.y + r.h ≤ GRID_SIZE) ∧
        checkOverlap (pts.foldl (moveOnMove mi) st) r.x r.y r.w r.h
          (some mi.id) = false
      then r else (⟨mi.originalX, mi.originalY, r.w, r.h⟩ : Rect)) =
        ⟨mi.originalX, mi.originalY, r.w, r.h⟩ := if_neg hcond
    rw [hite, entityRect_setPos, hr]
    rfl

theorem move_revert_law_witness :
    moveOnDown stateC3 (MoveHit.item (mkId "giftshop" 1)) 0 0 = some miC3 ∧
    (25 : Int) ≤ 100 ∧
    (∃ r₀ r, entityRect stateC3 miC3.type miC3.id = some r₀ ∧
      r₀.x = miC3.originalX ∧ r₀.y = miC3.originalY ∧
      entityRect ([(⟨true, 5, 5⟩ : MoveEvent)].foldl (moveOnMove miC3) stateC3)
        miC3.type miC3.id = some r ∧
      entityRect (moveOnUp
          ([(⟨true, 5, 5⟩ : MoveEvent)].foldl (moveOnMove miC3) stateC3)
          miC3 100 false) miC3.type miC3.id =
        some (if (0 ≤ r.x ∧ 0 ≤ r.y ∧ r.x + r.w ≤ GRID_SIZE ∧
                  r.y + r.h ≤ GRID_SIZE) ∧
                 checkOverlap ([(⟨true, 5, 5⟩ : MoveEvent)].foldl
                   (moveOnMove miC3) stateC3) r.x r.y r.w r.h
                   (some miC3.id) = false
              then r
              else ⟨miC3.originalX, miC3.originalY, r.w, r.h⟩)) := by
  refine ⟨by decide, by decide, ?_⟩
  exact move_revert_law stateC3 (MoveHit.item (mkId "giftshop" 1)) 0 0 miC3
    [⟨true, 5, 5⟩] 100 false (by decide) (by decide)

/-- The click branch of `moveOnUp` (distance < 5): restore, then delete
only on an accepted confirmation. -/
theorem moveOnUp_of_lt (st : ZooState) (mi : MovingItem) (distSquared : Int)
    (accept : Bool) (h : distSquared < 25) :
    moveOnUp st mi distSquared accept =
      (if accept then
        deleteEntity (setPos st mi.type mi.id mi.originalX mi.originalY)
          mi.type mi.id
       else setPos st mi.type mi.id mi.originalX mi.originalY) := by
  unfold moveOnUp
  rw [if_pos h]

/-- The click branch of `resizeOnUp` (distance < 5). -/
theorem resizeOnUp_of_lt (st : ZooState) (id : String) (orig : ResizeOriginal)
    (distSquared : Int) (accept : Bool) (h : distSquared < 25) :
    resizeOnUp st id orig distSquared accept =
      (let l := updateFirstBy (fun e => e.id == id)
        (fun e => { e with gridX := orig.gridX, gridY := orig.gridY,
                           width := orig.width, height := orig.height })
        st.enclosures
       if accept then deleteEnclosure id { st with enclosures := l }
       else { st with enclosures := l }) := by
  unfold resizeOnUp
  rw [if_pos h]

theorem resizeOnMove_enclosures (st : ZooState) (id : String) (edge : Edge)
    (px py : Int) :
    (resizeOnMove st id edge px py).enclosures = st.enclosures ∨
    ∃ f : Enclosure → Enclosure, (∀ e, (f e).id = e.id) ∧
      (resizeOnMove st id edge px py).enclosures =
        updateFirstBy (fun e => e.id == id) f st.enclosures := by
  unfold resizeOnMove
  cases hfe : findEnc st.enclosures id with
  | none => exact Or.inl rfl
  | some enc =>
    cases hb : checkOverlap st (resizeCandidate enc edge px py).x
      (resizeCandidate enc edge px py).y (resizeCandidate enc edge px py).w
      (resizeCandidate enc edge px py).h (some enc.id) with
    | false =>
      refine Or.inr ⟨(fun e => { e with
        gridX := (resizeCandidate enc edge px py).x,
        gridY := (resizeCandidate enc edge px py).y,
        width := (resizeCandidate enc edge px py).w,
        height := (resizeCandidate enc edge px py).h }), fun e => rfl, ?_⟩
      simp [hb]
    | true =>
      refine Or.inl ?_
      simp [hb]

theorem findEnc_foldl_resizes (id : String) (edge : Edge)
    (rpts : List (Int × Int)) (st : ZooState) (e₀ : Enclosure)
    (h : findEnc st.enclosures id = some e₀) :
    ∃ e', findEnc
      ((rpts.foldl (fun s p => resizeOnMove s id edge p.1 p.2) st).enclosures)
      id = some e' := by
  induction rpts generalizing st e₀ with
  | nil => exact ⟨e₀, h⟩
  | cons p rest ih =>
    simp only [List.foldl_cons]
    rcases resizeOnMove_enclosures st id edge p.1 p.2 with hE | ⟨f, hf, hE⟩
    · refine ih (resizeOnMove st id edge p.1 p.2) e₀ ?_
      unfold findEnc at h ⊢
      rw [hE]
      exact h
    · refine ih (resizeOnMove st id edge p.1 p.2) (f e₀) ?_
      unfold findEnc at h ⊢
      rw [hE, find?_updateFirstBy _ _ _ (fun e => by rw [hf e]), h]
      rfl

/-- C6: a gesture released at pixel distance < 5 is a delete request and
never a committed move or resize, whatever the move events did: the
entity's geometry is restored to the values recorded at gesture start,
and the entity is removed exactly when the confirmation dialog's accept
callback is invoked. -/
theorem click_is_delete_request
    (st : ZooState) (hit : MoveHit) (dx dy : Int) (mi : MovingItem)
    (pts : List MoveEvent) (st2 : ZooState) (id : String) (edge : Edge)
    (orig : ResizeOriginal) (rpts : List (Int × Int)) (distSquared : Int)
    (accept : Bool)
    (hdown : moveOnDown st hit dx dy = some mi)
    (hrdown : resizeOnDown st2 id = some orig)
    (hdist : distSquared < 25) :
    (∃ r₀ r, entityRect st mi.type mi.id = some r₀ ∧
      r₀.x = mi.originalX ∧ r₀.y = mi.originalY ∧
      entityRect (pts.foldl (moveOnMove mi) st) mi.type mi.id = some r ∧
      entityRect (moveOnUp (pts.foldl (moveOnMove mi) st) mi distSquared accept)
          mi.type mi.id =
        (if accept then none
         else some ⟨mi.originalX, mi.originalY, r.w, r.h⟩)) ∧
    (∃ e₀, findEnc st2.enclosures id = some e₀ ∧
      orig.gridX = e₀.gridX ∧ orig.gridY = e₀.gridY ∧
      orig.width = e₀.width ∧ orig.height = e₀.height ∧
      entityRect (resizeOnUp
          (rpts.foldl (fun s p => resizeOnMove s id edge p.1 p.2) st2)
          id orig distSquared accept) .enclosure id =
        (if accept then none
         else some ⟨orig.gridX, orig.gridY, orig.width, orig.height⟩)) := by
  constructor
  · obtain ⟨r₀, hr₀, hx₀, hy₀⟩ := moveOnDown_entityRect st hit dx dy mi hdown
    have hstM : ∃ r, entityRect (pts.foldl (moveOnMove mi) st) mi.type mi.id
        = some r := by
      rcases foldl_moveOnMove_cases mi pts st with h | ⟨x, y, h⟩
      · exact ⟨r₀, by rw [h, hr₀]⟩
      · exact ⟨⟨x, y, r₀.w, r₀.h⟩, by rw [h, entityRect_setPos, hr₀]; rfl⟩
    obtain ⟨r, hr⟩ := hstM
    refine ⟨r₀, r, hr₀, hx₀, hy₀, hr, ?_⟩
    rw [moveOnUp_of_lt _ _ _ accept hdist]
    cases accept
    · simp only [if_false, Bool.false_eq_true]
      rw [entityRect_setPos, hr]
      rfl
    · simp only [if_true]
      exact entityRect_deleteEntity _ _ _
  · unfold resizeOnDown at hrdown
    rw [Option.map_eq_some'] at hrdown
    obtain ⟨e₀, he₀, horig⟩ := hrdown
    obtain ⟨e', he'⟩ := findEnc_foldl_resizes id edge rpts st2 e₀ he₀
    refine ⟨e₀, he₀, by rw [← horig], by rw [← horig], by rw [← horig],
      by rw [← horig], ?_⟩
    rw [resizeOnUp_of_lt _ _ _ _ accept hdist]
    cases accept
    · simp only [if_false, Bool.false_eq_true]
      simp only [entityRect, findEnc] at he' ⊢
      rw [find?_updateFirstBy (fun e => e.id == id)
        (fun e => { e with gridX := orig.gridX, gridY := orig.gridY,
                           width := orig.width, height := orig.height })
        ((rpts.foldl (fun s p => resizeOnMove s id edge p.1 p.2) st2).enclosures)
        (fun e => rfl), he']
      rfl
    · simp only [if_true]
      simp only [entityRect, deleteEnclosure, findEnc]
      rw [find?_filter_not]
      rfl

theorem click_is_delete_request_witness :
    moveOnDown stateC3 (MoveHit.item (mkId "giftshop" 1)) 0 0 = some miC3 ∧
    resizeOnDown stateC4 "enclosure-1" = some ⟨0, 0, 2, 2⟩ ∧
    (4 : Int) < 25 ∧
    ((∃ r₀ r, entityRect stateC3 miC3.type miC3.id = some r₀ ∧
      r₀.x = miC3.originalX ∧ r₀.y = miC3.originalY ∧
      entityRect (([] : List MoveEvent).foldl (moveOnMove miC3) stateC3)
        miC3.type miC3.id = some r ∧
      entityRect (moveOnUp (([] : List MoveEvent).foldl (moveOnMove miC3) stateC3)
          miC3 4 false) miC3.type miC3.id =
        (if false then none
         else some ⟨miC3.originalX, miC3.originalY, r.w, r.h⟩)) ∧
    (∃ e₀, findEnc stateC4.enclosures "enclosure-1" = some e₀ ∧
      (⟨0, 0, 2, 2⟩ : ResizeOriginal).gridX = e₀.gridX ∧
      (⟨0, 0, 2, 2⟩ : ResizeOriginal).gridY = e₀.gridY ∧
      (⟨0, 0, 2, 2⟩ : ResizeOriginal).width = e₀.width ∧
      (⟨0, 0, 2, 2⟩ : ResizeOriginal).height = e₀.height ∧
      entityRect (resizeOnUp
          ([((3 : Int), (0 : Int))].foldl
            (fun s p => resizeOnMove s "enclosure-1" ⟨false, true, false, false⟩ p.1 p.2)
            stateC4)
          "enclosure-1" ⟨0, 0, 2, 2⟩ 4 false) .enclosure "enclosure-1" =
        (if false then none
         else some ⟨0, 0, 2, 2⟩))) := by
  refine ⟨by decide, by decide, by decide, ?_⟩
  exact click_is_delete_request stateC3 (MoveHit.item (mkId "giftshop" 1)) 0 0
    miC3 [] stateC4 "enclosure-1" ⟨false, true, false, false⟩ ⟨0, 0, 2, 2⟩
    [(3, 0)] 4 false (by decide) (by decide) (by decide)

/-! ### Codec round-trip lemmas -/

theorem natToBase36Aux_small (n : Nat) (h : n < 36) :
    natToBase36Aux (n + 1) n = [digit36 n] := by
  simp [natToBase36Aux, h]

theorem toBase36_small (i : Int) (h0 : 0 ≤ i) (h36 : i < 36) :
    toBase36 i = [digit36 i.toNat] := by
  unfold toBase36
  rw [if_neg (by omega)]
  exact natToBase36Aux_small i.toNat (by omega)

theorem digit36_ne_dot : ∀ n, n < 36 → digit36 n ≠ '.' := by decide

theorem fromBase36_digit36 : ∀ n, n < 36 → fromBase36 (digit36 n) = some n := by
  decide

theorem itemRecord_eq (catalog : List CatalogEntry) (b : PlacedItem)
    (h : itemFieldsOk catalog b) :
    itemRecord catalog b =
      [digit36 (findIndexJS (fun entry => entry.id == typeIdOf b.id) catalog).toNat,
       digit36 b.gridX.toNat, digit36 b.gridY.toNat] := by
  obtain ⟨h1, h2, h3, h4, h5, h6⟩ := h
  unfold itemRecord
  rw [toBase36_small _ h1 h2, toBase36_small _ h3 h4, toBase36_small _ h5 h6]
  rfl

theorem enclosureRecord_eq (animals : List Animal) (e : Enclosure)
    (h : enclosureFieldsOk animals e) :
    enclosureRecord animals e =
      [digit36 (findIndexJS (fun a => a.id == e.animal) animals).toNat,
       digit36 e.gridX.toNat, digit36 e.gridY.toNat,
       digit36 e.width.toNat, digit36 e.height.toNat] := by
  obtain ⟨h1, h2, h3, h4, h5, h6, h7, h8, h9, h10⟩ := h
  unfold enclosureRecord
  rw [toBase36_small _ h1 h2, toBase36_small _ h3 h4, toBase36_small _ h5 h6,
    toBase36_small _ h7 h8, toBase36_small _ h9 h10]
  rfl

theorem itemChars_ne_dot (catalog : List CatalogEntry) (bs : List PlacedItem)
    (h : ∀ b ∈ bs, itemFieldsOk catalog b) :
    ∀ c ∈ (bs.map (itemRecord catalog)).flatten, c ≠ '.' := by
  intro c hc
  rw [List.mem_flatten] at hc
  obtain ⟨l, hl, hcl⟩ := hc
  rw [List.mem_map] at hl
  obtain ⟨b, hb, rfl⟩ := hl
  obtain ⟨h1, h2, h3, h4, h5, h6⟩ := h b hb
  rw [itemRecord_eq catalog b (h b hb)] at hcl
  simp only [List.mem_cons, List.not_mem_nil, or_false] at hcl
  rcases hcl with rfl | rfl | rfl
  · exact digit36_ne_dot _ (by omega)
  · exact digit36_ne_dot _ (by omega)
  · exact digit36_ne_dot _ (by omega)

theorem enclosureChars_ne_dot (animals : List Animal) (es : List Enclosure)
    (h : ∀ e ∈ es, enclosureFieldsOk animals e) :
    ∀ c ∈ (es.map (enclosureRecord animals)).flatten, c ≠ '.' := by
  intro c hc
  rw [List.mem_flatten] at hc
  obtain ⟨l, hl, hcl⟩ := hc
  rw [List.mem_map] at hl
  obtain ⟨e, he, rfl⟩ := hl
  obtain ⟨h1, h2, h3, h4, h5, h6, h7, h8, h9, h10⟩ := h e he
  rw [enclosureRecord_eq animals e (h e he)] at hcl
  simp only [List.mem_cons, List.not_mem_nil, or_false] at hcl
  rcases hcl with rfl | rfl | rfl | rfl | rfl
  · exact digit36_ne_dot _ (by omega)
  · exact digit36_ne_dot _ (by omega)
  · exact digit36_ne_dot _ (by omega)
  · exact digit36_ne_dot _ (by omega)
  · exact digit36_ne_dot _ (by omega)

theorem parse3_cons3 (c0 c1 c2 : Char) (rest : List Char) :
    parse3 (c0 :: c1 :: c2 :: rest) =
      ⟨fromBase36 c0, fromBase36 c1, fromBase36 c2⟩ :: parse3 rest := rfl

theorem parse5_cons5 (c0 c1 c2 c3 c4 : Char) (rest : List Char) :
    parse5 (c0 :: c1 :: c2 :: c3 :: c4 :: rest) =
      ⟨fromBase36 c0, fromBase36 c1, fromBase36 c2, fromBase36 c3,
        fromBase36 c4⟩ :: parse5 rest := rfl

theorem parse3_eq (catalog : List CatalogEntry) (bs : List PlacedItem)
    (h : ∀ b ∈ bs, itemFieldsOk catalog b) :
    parse3 ((bs.map (itemRecord catalog)).flatten) =
      bs.map (decodedOfItem catalog) := by
  induction bs with
  | nil => rfl
  | cons b rest ih =>
    simp only [List.map_cons, List.flatten_cons]
    obtain ⟨h1, h2, h3, h4, h5, h6⟩ := h b (List.mem_cons_self b rest)
    rw [itemRecord_eq catalog b (h b (List.mem_cons_self b rest))]
    simp only [List.cons_append, List.nil_append]
    rw [parse3_cons3]
    rw [fromBase36_digit36 _ (by omega), fromBase36_digit36 _ (by omega),
      fromBase36_digit36 _ (by omega)]
    rw [ih (fun b' hb' => h b' (List.mem_cons_of_mem b hb'))]
    rfl

theorem parse5_eq (animals : List Animal) (es : List Enclosure)
    (h : ∀ e ∈ es, enclosureFieldsOk animals e) :
    parse5 ((es.map (enclosureRecord animals)).flatten) =
      es.map (decodedOfEnclosure animals) := by
  induction es with
  | nil => rfl
  | cons e rest ih =>
    simp only [List.map_cons, List.flatten_cons]
    obtain ⟨h1, h2, h3, h4, h5, h6, h7, h8, h9, h10⟩ := h e (List.mem_cons_self e rest)
    rw [enclosureRecord_eq animals e (h e (List.mem_cons_self e rest))]
    simp only [List.cons_append, List.nil_append]
    rw [parse5_cons5]
    rw [fromBase36_digit36 _ (by omega), fromBase36_digit36 _ (by omega),
      fromBase36_digit36 _ (by omega), fromBase36_digit36 _ (by omega),
      fromBase36_digit36 _ (by omega)]
    rw [ih (fun e' he' => h e' (List.mem_cons_of_mem e he'))]
    rfl

theorem stripTrailingDots_dotfree (l : List Char) (h : ∀ c ∈ l, c ≠ '.') :
    stripTrailingDots l = l := by
  unfold stripTrailingDots
  have hdw : l.reverse.dropWhile (· == '.') = l.reverse := by
    cases hrev : l.reverse with
    | nil => rfl
    | cons c cs =>
      have hc : c ∈ l := by
        rw [← List.mem_reverse, hrev]
        exact List.mem_cons_self c cs
      rw [List.dropWhile_cons,
        show (c == '.') = false from by simpa using h c hc]
      simp
  rw [hdw, List.reverse_reverse]

theorem stripTrailingDots_append_nonnil (l r : List Char) (hr : r ≠ [])
    (h : ∀ c ∈ r, c ≠ '.') : stripTrailingDots (l ++ r) = l ++ r := by
  unfold stripTrailingDots
  rw [List.reverse_append]
  have hdw : (r.reverse ++ l.reverse).dropWhile (· == '.') =
      r.reverse ++ l.reverse := by
    cases hrev : r.reverse with
    | nil => exact absurd (List.reverse_eq_nil_iff.mp hrev) hr
    | cons c cs =>
      have hc : c ∈ r := by
        rw [← List.mem_reverse, hrev]
        exact List.mem_cons_self c cs
      rw [List.cons_append, List.dropWhile_cons,
        show (c == '.') = false from by simpa using h c hc]
      simp
  rw [hdw, List.reverse_append, List.reverse_reverse, List.reverse_reverse]

theorem stripTrailingDots_append_dot (l : List Char) :
    stripTrailingDots (l ++ ['.']) = stripTrailingDots l := by
  unfold stripTrailingDots
  rw [List.reverse_append]
  rfl

theorem splitOnDot_ne_nil (l : List Char) : splitOnDot l ≠ [] := by
  induction l with
  | nil => simp [splitOnDot]
  | cons c rest ih =>
    unfold splitOnDot
    cases h : splitOnDot rest with
    | nil => simp
    | cons cur more => by_cases hc : c = '.' <;> simp [hc]

theorem splitOnDot_dotfree (l : List Char) (h : ∀ c ∈ l, c ≠ '.') :
    splitOnDot l = [l] := by
  induction l with
  | nil => rfl
  | cons c rest ih =>
    have hrest := ih (fun c' hc' => h c' (List.mem_cons_of_mem c hc'))
    unfold splitOnDot
    rw [hrest]
    simp [h c (List.mem_cons_self c rest)]

theorem splitOnDot_append_dot (a rest : List Char) (h : ∀ c ∈ a, c ≠ '.') :
    splitOnDot (a ++ '.' :: rest) = a :: splitOnDot rest := by
  induction a with
  | nil =>
    simp only [List.nil_append]
    rw [splitOnDot]
    cases hs : splitOnDot rest with
    | nil => exact absurd hs (splitOnDot_ne_nil rest)
    | cons cur more => simp
  | cons c a' ih =>
    have hih := ih (fun c' hc' => h c' (List.mem_cons_of_mem c hc'))
    simp only [List.cons_append]
    rw [splitOnDot, hih]
    simp [h c (List.mem_cons_self c a')]

/-- C1: for a state whose coordinates, sizes and resolved catalog/occupant
indices are all single base-36 digits, decoding the encoded string yields,
per section and in order, exactly the state's (catalogIndex, x, y) tuples
for buildings and decorations and (occupantIndex, x, y, w, h) tuples for
enclosures (instance ids are not part of the decoded records). -/
theorem decode_encode_roundtrip (B D : List CatalogEntry) (A : List Animal)
    (st : ZooState)
    (hB : ∀ b ∈ st.placedBuildings, itemFieldsOk B b)
    (hD : ∀ d ∈ st.placedDecorations, itemFieldsOk D d)
    (hE : ∀ e ∈ st.enclosures, enclosureFieldsOk A e) :
    decodeZooState (encodeZooState B D A st) =
      some ⟨st.placedBuildings.map (decodedOfItem B),
            st.placedDecorations.map (decodedOfItem D),
            st.enclosures.map (decodedOfEnclosure A)⟩ := by
  have hbDot := itemChars_ne_dot B st.placedBuildings hB
  have hdDot := itemChars_ne_dot D st.placedDecorations hD
  have heDot := enclosureChars_ne_dot A st.enclosures hE
  have hkey : ∀ l : List Char, decodeZooState ⟨l⟩ =
      some ⟨parse3 ((splitOnDot l).getD 0 []),
            parse3 ((splitOnDot l).getD 1 []),
            parse5 ((splitOnDot l).getD 2 [])⟩ := fun l => rfl
  have henc : encodeZooState B D A st =
      ⟨stripTrailingDots ((st.placedBuildings.map (itemRecord B)).flatten ++
        '.' :: ((st.placedDecorations.map (itemRecord D)).flatten ++
          '.' :: (st.enclosures.map (enclosureRecord A)).flatten))⟩ := rfl
  rw [henc, hkey]
  by_cases hEnil : st.enclosures = []
  · by_cases hDnil : st.placedDecorations = []
    · rw [hEnil, hDnil]
      simp only [List.map_nil, List.flatten_nil]
      have hsplit : (st.placedBuildings.map (itemRecord B)).flatten ++
          '.' :: ([] ++ '.' :: []) =
          (((st.placedBuildings.map (itemRecord B)).flatten ++ ['.']) ++ ['.']) := by
        simp
      rw [hsplit, stripTrailingDots_append_dot, stripTrailingDots_append_dot,
        stripTrailingDots_dotfree _ hbDot,
        splitOnDot_dotfree _ hbDot]
      simp only [List.getD_cons_zero, List.getD_cons_succ, List.getD_nil]
      rw [parse3_eq B st.placedBuildings hB]
      rfl
    · rw [hEnil]
      simp only [List.map_nil, List.flatten_nil]
      have hdC : (st.placedDecorations.map (itemRecord D)).flatten ≠ [] := by
        obtain ⟨d, tl, hdec⟩ := List.exists_cons_of_ne_nil hDnil
        rw [hdec, List.map_cons, List.flatten_cons,
          itemRecord_eq D d (hD d (by rw [hdec]; exact List.mem_cons_self d tl))]
        simp
      have hsplit : (st.placedBuildings.map (itemRecord B)).flatten ++
          '.' :: ((st.placedDecorations.map (itemRecord D)).flatten ++ '.' :: []) =
          ((((st.placedBuildings.map (itemRecord B)).flatten ++ ['.']) ++
            (st.placedDecorations.map (itemRecord D)).flatten) ++ ['.']) := by
        simp
      rw [hsplit, stripTrailingDots_append_dot,
        stripTrailingDots_append_nonnil _ _ hdC hdDot]
      have hsplit2 : ((st.placedBuildings.map (itemRecord B)).flatten ++ ['.']) ++
          (st.placedDecorations.map (itemRecord D)).flatten =
          (st.placedBuildings.map (itemRecord B)).flatten ++
            '.' :: (st.placedDecorations.map (itemRecord D)).flatten := by
        simp
      rw [hsplit2, splitOnDot_append_dot _ _ hbDot,
        splitOnDot_dotfree _ hdDot]
      simp only [List.getD_cons_zero, List.getD_cons_succ, List.getD_nil]
      rw [parse3_eq B st.placedBuildings hB, parse3_eq D st.placedDecorations hD]
      rfl
  · have heC : (st.enclosures.map (enclosureRecord A)).flatten ≠ [] := by
      obtain ⟨e, tl, hen⟩ := List.exists_cons_of_ne_nil hEnil
      rw [hen, List.map_cons, List.flatten_cons,
        enclosureRecord_eq A e (hE e (by rw [hen]; exact List.mem_cons_self e tl))]
      simp
    have hsplit : (st.placedBuildings.map (itemRecord B)).flatten ++
        '.' :: ((st.placedDecorations.map (itemRecord D)).flatten ++
          '.' :: (st.enclosures.map (enclosureRecord A)).flatten) =
        ((((st.placedBuildings.map (itemRecord B)).flatten ++ ['.']) ++
          ((st.placedDecorations.map (itemRecord D)).flatten ++ ['.'])) ++
          (st.enclosures.map (enclosureRecord A)).flatten) := by
      simp
    rw [hsplit, stripTrailingDots_append_nonnil _ _ heC heDot, ← hsplit,
      splitOnDot_append_dot _ _ hbDot, splitOnDot_append_dot _ _ hdDot,
      splitOnDot_dotfree _ heDot]
    simp only [List.getD_cons_zero, List.getD_cons_succ, List.getD_nil]
    rw [parse3_eq B st.placedBuildings hB, parse3_eq D st.placedDecorations hD,
      parse5_eq A st.enclosures hE]

theorem decode_encode_roundtrip_witness :
    (∀ b ∈ stateC9.placedBuildings, itemFieldsOk catalogC9 b) ∧
    (∀ d ∈ stateC9.placedDecorations, itemFieldsOk ([] : List CatalogEntry) d) ∧
    (∀ e ∈ stateC9.enclosures, enclosureFieldsOk ([] : List Animal) e) ∧
    decodeZooState (encodeZooState catalogC9 [] [] stateC9) =
      some ⟨stateC9.placedBuildings.map (decodedOfItem catalogC9),
            stateC9.placedDecorations.map (decodedOfItem []),
            stateC9.enclosures.map (decodedOfEnclosure [])⟩ := by
  refine ⟨by decide, by decide, by decide, ?_⟩
  exact decode_encode_roundtrip catalogC9 [] [] stateC9
    (by decide) (by decide) (by decide)

/-! ### Instance-id bookkeeping: decimal counters and `typeId-counter` ids -/

theorem char_digit_toNat : ∀ d : Nat, d < 10 → (Char.ofNat (48 + d)).toNat = 48 + d := by
  decide

theorem char_digit_ne_hyphen : ∀ d : Nat, d < 10 → Char.ofNat (48 + d) ≠ '-' := by
  decide

theorem natToDecAux_foldl : ∀ (fuel n : Nat), n < fuel →
    (natToDecAux fuel n).foldl (fun acc c => acc * 10 + (c.toNat - 48)) 0 = n := by
  intro fuel
  induction fuel with
  | zero => intro n h; omega
  | succ fuel ih =>
    intro n h
    by_cases h10 : n < 10
    · simp only [natToDecAux, if_pos h10, List.foldl_cons, List.foldl_nil,
        char_digit_toNat n h10]
      omega
    · simp only [natToDecAux, if_neg h10]
      rw [List.foldl_append, ih (n / 10) (by omega)]
      simp only [List.foldl_cons, List.foldl_nil,
        char_digit_toNat (n % 10) (by omega)]
      omega

theorem natToDec_inj (m k : Nat) (h : natToDec m = natToDec k) : m = k := by
  have hm := natToDecAux_foldl (m + 1) m (by omega)
  have hk := natToDecAux_foldl (k + 1) k (by omega)
  unfold natToDec at h
  rw [h, hk] at hm
  omega

theorem natToDecAux_ne_hyphen : ∀ (fuel n : Nat), ∀ c ∈ natToDecAux fuel n, c ≠ '-' := by
  intro fuel
  induction fuel with
  | zero => intro n c hc; simp [natToDecAux] at hc
  | succ fuel ih =>
    intro n c hc
    by_cases h10 : n < 10
    · simp only [natToDecAux, if_pos h10, List.mem_singleton] at hc
      subst hc
      exact char_digit_ne_hyphen n h10
    · simp only [natToDecAux, if_neg h10, List.mem_append,
        List.mem_singleton] at hc
      rcases hc with hc | hc
      · exact ih (n / 10) c hc
      · subst hc
        exact char_digit_ne_hyphen (n % 10) (by omega)

theorem append_hyphen_inj : ∀ (a b x y : List Char), '-' ∉ a → '-' ∉ b →
    a ++ '-' :: x = b ++ '-' :: y → a = b ∧ x = y := by
  intro a
  induction a with
  | nil =>
    intro b x y _ hb h
    cases b with
    | nil => simpa using h
    | cons c b' =>
      simp only [List.nil_append, List.cons_append, List.cons.injEq] at h
      exact absurd (List.mem_cons.mpr (Or.inl h.1)) hb
  | cons c a' ih =>
    intro b x y ha hb h
    cases b with
    | nil =>
      simp only [List.cons_append, List.nil_append, List.cons.injEq] at h
      exact absurd (List.mem_cons.mpr (Or.inl h.1.symm)) ha

    | cons d b' =>
      simp only [List.cons_append, List.cons.injEq] at h
      obtain ⟨hcd, htail⟩ := h
      obtain ⟨hab, hxy⟩ := ih b' x y
        (fun hm => ha (List.mem_cons_of_mem c hm))
        (fun hm => hb (List.mem_cons_of_mem d hm)) htail
      exact ⟨by rw [hcd, hab], hxy⟩

theorem mkId_inj (t t' : String) (k k' : Nat) (ht : '-' ∉ t.data)
    (ht' : '-' ∉ t'.data) (h : mkId t k = mkId t' k') : t = t' ∧ k = k' := by
  have hd : t.data ++ '-' :: natToDec k = t'.data ++ '-' :: natToDec k' :=
    congrArg String.data h
  obtain ⟨h1, h2⟩ := append_hyphen_inj t.data t'.data _ _ ht ht' hd
  refine ⟨?_, natToDec_inj k k' h2⟩
  cases t
  cases t'
  exact congrArg String.mk h1

theorem prefix_mkId_iff (t t' : String) (k : Nat) (ht : '-' ∉ t.data)
    (ht' : '-' ∉ t'.data) :
    ((t' ++ "-").data.isPrefixOf (mkId t k).data = true) ↔ t' = t := by
  rw [List.isPrefixOf_iff_prefix]
  constructor
  · rintro ⟨z, hz⟩
    rw [String.data_append] at hz
    have hz' : t'.data ++ '-' :: z = t.data ++ '-' :: natToDec k := by
      simpa [List.append_assoc] using hz
    obtain ⟨h1, _⟩ := append_hyphen_inj _ _ _ _ ht' ht hz'
    cases t
    cases t'
    exact congrArg String.mk h1
  · rintro rfl
    refine ⟨natToDec k, ?_⟩
    rw [String.data_append]
    show (t'.data ++ ['-']) ++ natToDec k = t'.data ++ '-' :: natToDec k
    simp

theorem pairwiseNoOv_iff (l : List (String × Rect)) :
    pairwiseNoOv l = true ↔
      l.Pairwise (fun p q => rectsOverlap p.2 q.2 = false) := by
  induction l with
  | nil => simp [pairwiseNoOv]
  | cons p rest ih =>
    simp [pairwiseNoOv, List.pairwise_cons, ih, List.all_eq_true]

/-! ### entRects decompositions for first-match updates -/

theorem mem_updateFirstBy {α : Type} (p : α → Bool) (f : α → α) (l : List α)
    (x : α) (hx : x ∈ updateFirstBy p f l) : x ∈ l ∨ ∃ x₀ ∈ l, x = f x₀ := by
  induction l with
  | nil => simp [updateFirstBy] at hx
  | cons a rest ih =>
    by_cases ha : p a
    · simp only [updateFirstBy, if_pos ha, List.mem_cons] at hx
      rcases hx with rfl | hx
      · exact Or.inr ⟨a, List.mem_cons_self a rest, rfl⟩
      · exact Or.inl (List.mem_cons_of_mem a hx)
    · simp only [updateFirstBy, if_neg ha, List.mem_cons] at hx
      rcases hx with rfl | hx
      · exact Or.inl (List.mem_cons_self x rest)
      · rcases ih hx with h | ⟨x₀, hx₀, rfl⟩
        · exact Or.inl (List.mem_cons_of_mem a h)
        · exact Or.inr ⟨x₀, List.mem_cons_of_mem a hx₀, rfl⟩

theorem allIds_eq (s : ZooState) :
    allIds s = s.placedBuildings.map PlacedItem.id ++
      s.placedDecorations.map PlacedItem.id ++ s.enclosures.map Enclosure.id := by
  simp only [allIds, entRects, List.map_append, List.map_map]
  rfl

theorem overlap_false_others (s : ZooState) (x y w h : Int) (id : String)
    (hov : checkOverlap s x y w h (some id) = false) :
    ∀ q ∈ entRects s, q.1 ≠ id → rectsOverlap ⟨x, y, w, h⟩ q.2 = false := by
  intro q hq hne
  refine (checkOverlap_eq_false_iff s x y w h (some id)).mp hov q hq ?_
  simp [idMatches, hne]

theorem entRects_update_building (s : ZooState) (id : String)
    (f : PlacedItem → PlacedItem) (b : PlacedItem)
    (hfind : s.placedBuildings.find? (fun x => x.id == id) = some b) :
    ∃ l₁ l₂,
      entRects s = l₁ ++ (b.id, (⟨b.gridX, b.gridY, b.width, b.height⟩ : Rect)) :: l₂ ∧
      entRects { s with placedBuildings := updateFirstBy (fun x => x.id == id) f s.placedBuildings } =
        l₁ ++ ((f b).id,
          (⟨(f b).gridX, (f b).gridY, (f b).width, (f b).height⟩ : Rect)) :: l₂ := by
  obtain ⟨l₁', l₂', hl, _, hupd⟩ :=
    updateFirstBy_decomp (fun x => x.id == id) f s.placedBuildings b hfind
  refine ⟨l₁'.map (fun x => (x.id, ⟨x.gridX, x.gridY, x.width, x.height⟩)),
    l₂'.map (fun x => (x.id, ⟨x.gridX, x.gridY, x.width, x.height⟩)) ++
      s.placedDecorations.map (fun d => (d.id, ⟨d.gridX, d.gridY, d.width, d.height⟩)) ++
      s.enclosures.map (fun e => (e.id, ⟨e.gridX, e.gridY, e.width, e.height⟩)),
    ?_, ?_⟩
  · simp only [entRects]
    rw [hl]
    simp [List.map_append, List.append_assoc]
  · simp only [entRects]
    rw [hupd]
    simp [List.map_append, List.append_assoc]

theorem entRects_update_decoration (s : ZooState) (id : String)
    (f : PlacedItem → PlacedItem) (d : PlacedItem)
    (hfind : s.placedDecorations.find? (fun x => x.id == id) = some d) :
    ∃ l₁ l₂,
      entRects s = l₁ ++ (d.id, (⟨d.gridX, d.gridY, d.width, d.height⟩ : Rect)) :: l₂ ∧
      entRects { s with placedDecorations := updateFirstBy (fun x => x.id == id) f s.placedDecorations } =
        l₁ ++ ((f d).id,
          (⟨(f d).gridX, (f d).gridY, (f d).width, (f d).height⟩ : Rect)) :: l₂ := by
  obtain ⟨l₁', l₂', hl, _, hupd⟩ :=
    updateFirstBy_decomp (fun x => x.id == id) f s.placedDecorations d hfind
  refine ⟨s.placedBuildings.map (fun x => (x.id, ⟨x.gridX, x.gridY, x.width, x.height⟩)) ++
      l₁'.map (fun x => (x.id, ⟨x.gridX, x.gridY, x.width, x.height⟩)),
    l₂'.map (fun x => (x.id, ⟨x.gridX, x.gridY, x.width, x.height⟩)) ++
      s.enclosures.map (fun e => (e.id, ⟨e.gridX, e.gridY, e.width, e.height⟩)),
    ?_, ?_⟩
  · simp only [entRects]
    rw [hl]
    simp [List.map_append, List.append_assoc]
  · simp only [entRects]
    rw [hupd]
    simp [List.map_append, List.append_assoc]

theorem entRects_update_enclosure (s : ZooState) (id : String)
    (f : Enclosure → Enclosure) (e : Enclosure)
    (hfind : s.enclosures.find? (fun x => x.id == id) = some e) :
    ∃ l₁ l₂,
      entRects s = l₁ ++ (e.id, (⟨e.gridX, e.gridY, e.width, e.height⟩ : Rect)) :: l₂ ∧
      entRects { s with enclosures := updateFirstBy (fun x => x.id == id) f s.enclosures } =
        l₁ ++ ((f e).id,
          (⟨(f e).gridX, (f e).gridY, (f e).width, (f e).height⟩ : Rect)) :: l₂ := by
  obtain ⟨l₁', l₂', hl, _, hupd⟩ :=
    updateFirstBy_decomp (fun x => x.id == id) f s.enclosures e hfind
  refine ⟨s.placedBuildings.map (fun x => (x.id, ⟨x.gridX, x.gridY, x.width, x.height⟩)) ++
      s.placedDecorations.map (fun x => (x.id, ⟨x.gridX, x.gridY, x.width, x.height⟩)) ++
      l₁'.map (fun x => (x.id, ⟨x.gridX, x.gridY, x.width, x.height⟩)),
    l₂'.map (fun x => (x.id, ⟨x.gridX, x.gridY, x.width, x.height⟩)), ?_, ?_⟩
  · simp only [entRects]
    rw [hl]
    simp [List.map_append, List.append_assoc]
  · simp only [entRects]
    rw [hupd]
    simp [List.map_append, List.append_assoc]

theorem pairwise_replace (l₁ l₂ : List (String × Rect)) (idv : String)
    (r₀ rN : Rect)
    (hpw : (l₁ ++ (idv, r₀) :: l₂).Pairwise
      (fun p q => rectsOverlap p.2 q.2 = false))
    (hov : ∀ q ∈ l₁ ++ l₂, rectsOverlap rN q.2 = false) :
    (l₁ ++ (idv, rN) :: l₂).Pairwise
      (fun p q => rectsOverlap p.2 q.2 = false) := by
  have hsym : ∀ {p q : String × Rect},
      rectsOverlap p.2 q.2 = false → rectsOverlap q.2 p.2 = false := by
    intro p q h
    rw [rectsOverlap_comm]
    exact h
  rw [List.pairwise_middle @hsym] at hpw ⊢
  rw [List.pairwise_cons] at hpw ⊢
  exact ⟨fun q hq => hov q hq, hpw.2⟩

/-! ### Invariant preservation under first-match geometry updates -/

theorem Inv_update_building (B D : List CatalogEntry) (s : ZooState)
    (hinv : Inv B D s) (id : String) (f : PlacedItem → PlacedItem)
    (hfid : ∀ x, (f x).id = x.id) (b : PlacedItem)
    (hfind : s.placedBuildings.find? (fun x => x.id == id) = some b)
    (hov : ∀ q ∈ entRects s, q.1 ≠ id →
      rectsOverlap ⟨(f b).gridX, (f b).gridY, (f b).width, (f b).height⟩ q.2 = false) :
    Inv B D { s with placedBuildings := updateFirstBy (fun x => x.id == id) f s.placedBuildings } := by
  obtain ⟨hpw, ⟨hIb, hId, hIe, hnodup⟩, hUe, hUb⟩ := hinv
  obtain ⟨l₁, l₂, hdec, hdec'⟩ := entRects_update_building s id f b hfind
  rw [hfid b] at hdec'
  have hbid : b.id = id := by
    have := List.find?_some hfind
    simpa using this
  have hnotmem : b.id ∉ l₁.map Prod.fst ++ l₂.map Prod.fst := by
    have h1 : allIds s = l₁.map Prod.fst ++ b.id :: l₂.map Prod.fst := by
      unfold allIds
      rw [hdec]
      simp
    rw [h1] at hnodup
    exact (List.nodup_cons.mp (List.nodup_middle.mp hnodup)).1
  refine ⟨?_, ⟨?_, hId, hIe, ?_⟩, hUe, ?_⟩
  · rw [pairwiseNoOv_iff, hdec']
    rw [pairwiseNoOv_iff, hdec] at hpw
    refine pairwise_replace l₁ l₂ b.id _ _ hpw ?_
    intro q hq
    have hqm : q ∈ entRects s := by
      rw [hdec]
      rcases List.mem_append.mp hq with h | h
      · exact List.mem_append_left _ h
      · exact List.mem_append_right _ (List.mem_cons_of_mem _ h)
    have hqne : q.1 ≠ id := by
      intro habs
      apply hnotmem
      rw [hbid, ← habs]
      rcases List.mem_append.mp hq with h | h
      · exact List.mem_append_left _ (List.mem_map_of_mem Prod.fst h)
      · exact List.mem_append_right _ (List.mem_map_of_mem Prod.fst h)
    exact hov q hqm hqne
  · intro x hx
    rcases mem_updateFirstBy _ _ _ x hx with hmem | ⟨x₀, hx₀, rfl⟩
    · exact hIb x hmem
    · obtain ⟨t, k, h1, h2, h3⟩ := hIb x₀ hx₀
      exact ⟨t, k, h1, h2, by rw [hfid x₀, h3]⟩
  · rw [allIds_eq] at hnodup ⊢
    rw [map_updateFirstBy _ _ _ _ hfid]
    exact hnodup
  · intro t ht htr
    rw [map_updateFirstBy _ _ _ _ hfid]
    exact hUb t ht htr

theorem Inv_update_decoration (B D : List CatalogEntry) (s : ZooState)
    (hinv : Inv B D s) (id : String) (f : PlacedItem → PlacedItem)
    (hfid : ∀ x, (f x).id = x.id) (d : PlacedItem)
    (hfind : s.placedDecorations.find? (fun x => x.id == id) = some d)
    (hov : ∀ q ∈ entRects s, q.1 ≠ id →
      rectsOverlap ⟨(f d).gridX, (f d).gridY, (f d).width, (f d).height⟩ q.2 = false) :
    Inv B D { s with placedDecorations := updateFirstBy (fun x => x.id == id) f s.placedDecorations } := by
  obtain ⟨hpw, ⟨hIb, hId, hIe, hnodup⟩, hUe, hUb⟩ := hinv
  obtain ⟨l₁, l₂, hdec, hdec'⟩ := entRects_update_decoration s id f d hfind
  rw [hfid d] at hdec'
  have hbid : d.id = id := by
    have := List.find?_some hfind
    simpa using this
  have hnotmem : d.id ∉ l₁.map Prod.fst ++ l₂.map Prod.fst := by
    have h1 : allIds s = l₁.map Prod.fst ++ d.id :: l₂.map Prod.fst := by
      unfold allIds
      rw [hdec]
      simp
    rw [h1] at hnodup
    exact (List.nodup_cons.mp (List.nodup_middle.mp hnodup)).1
  refine ⟨?_, ⟨hIb, ?_, hIe, ?_⟩, hUe, ?_⟩
  · rw [pairwiseNoOv_iff, hdec']
    rw [pairwiseNoOv_iff, hdec] at hpw
    refine pairwise_replace l₁ l₂ d.id _ _ hpw ?_
    intro q hq
    have hqm : q ∈ entRects s := by
      rw [hdec]
      rcases List.mem_append.mp hq with h | h
      · exact List.mem_append_left _ h
      · exact List.mem_append_right _ (List.mem_cons_of_mem _ h)
    have hqne : q.1 ≠ id := by
      intro habs
      apply hnotmem
      rw [hbid, ← habs]
      rcases List.mem_append.mp hq with h | h
      · exact List.mem_append_left _ (List.mem_map_of_mem Prod.fst h)
      · exact List.mem_append_right _ (List.mem_map_of_mem Prod.fst h)
    exact hov q hqm hqne
  · intro x hx
    rcases mem_updateFirstBy _ _ _ x hx with hmem | ⟨x₀, hx₀, rfl⟩
    · exact hId x hmem
    · obtain ⟨t, k, h1, h2, h3⟩ := hId x₀ hx₀
      exact ⟨t, k, h1, h2, by rw [hfid x₀, h3]⟩
  · rw [allIds_eq] at hnodup ⊢
    rw [map_updateFirstBy _ _ _ _ hfid]
    exact hnodup
  · exact hUb

theorem Inv_update_enclosure (B D : List CatalogEntry) (s : ZooState)
    (hinv : Inv B D s) (id : String) (f : Enclosure → Enclosure)
    (hfid : ∀ x, (f x).id = x.id) (hfanim : ∀ x, (f x).animal = x.animal)
    (e : Enclosure)
    (hfind : s.enclosures.find? (fun x => x.id == id) = some e)
    (hov : ∀ q ∈ entRects s, q.1 ≠ id →
      rectsOverlap ⟨(f e).gridX, (f e).gridY, (f e).width, (f e).height⟩ q.2 = false) :
    Inv B D { s with enclosures := updateFirstBy (fun x => x.id == id) f s.enclosures } := by
  obtain ⟨hpw, ⟨hIb, hId, hIe, hnodup⟩, hUe, hUb⟩ := hinv
  obtain ⟨l₁, l₂, hdec, hdec'⟩ := entRects_update_enclosure s id f e hfind
  rw [hfid e] at hdec'
  have hbid : e.id = id := by
    have := List.find?_some hfind
    simpa using this
  have hnotmem : e.id ∉ l₁.map Prod.fst ++ l₂.map Prod.fst := by
    have h1 : allIds s = l₁.map Prod.fst ++ e.id :: l₂.map Prod.fst := by
      unfold allIds
      rw [hdec]
      simp
    rw [h1] at hnodup
    exact (List.nodup_cons.mp (List.nodup_middle.mp hnodup)).1
  refine ⟨?_, ⟨hIb, hId, ?_, ?_⟩, ?_, hUb⟩
  · rw [pairwiseNoOv_iff, hdec']
    rw [pairwiseNoOv_iff, hdec] at hpw
    refine pairwise_replace l₁ l₂ e.id _ _ hpw ?_
    intro q hq
    have hqm : q ∈ entRects s := by
      rw [hdec]
      rcases List.mem_append.mp hq with h | h
      · exact List.mem_append_left _ h
      · exact List.mem_append_right _ (List.mem_cons_of_mem _ h)
    have hqne : q.1 ≠ id := by
      intro habs
      apply hnotmem
      rw [hbid, ← habs]
      rcases List.mem_append.mp hq with h | h
      · exact List.mem_append_left _ (List.mem_map_of_mem Prod.fst h)
      · exact List.mem_append_right _ (List.mem_map_of_mem Prod.fst h)
    exact hov q hqm hqne
  · intro x hx
    rcases mem_updateFirstBy _ _ _ x hx with hmem | ⟨x₀, hx₀, rfl⟩
    · exact hIe x hmem
    · obtain ⟨k, h2, h3⟩ := hIe x₀ hx₀
      exact ⟨k, h2, by rw [hfid x₀, h3]⟩
  · rw [allIds_eq] at hnodup ⊢
    rw [map_updateFirstBy _ _ _ _ hfid]
    exact hnodup
  · rw [map_updateFirstBy _ _ _ _ hfanim]
    exact hUe

/-! ### Freshness of generated instance ids -/

theorem catalogWF_props (B D : List CatalogEntry) (hwf : CatalogWF B D)
    (t : String) (ht : t ∈ (B ++ D).map CatalogEntry.id) :
    '-' ∉ t.data ∧ t ≠ "enclosure" := by
  obtain ⟨entry, hm, rfl⟩ := List.mem_map.mp ht
  exact hwf.2 entry hm

theorem catalogWF_disjoint (B D : List CatalogEntry) (hwf : CatalogWF B D)
    (t : String) (htB : t ∈ B.map CatalogEntry.id)
    (htD : t ∈ D.map CatalogEntry.id) : False := by
  have h := hwf.1
  rw [List.map_append] at h
  exact (List.nodup_append.mp h).2.2 htB htD

theorem enclosure_hyphen_free : '-' ∉ ("enclosure" : String).data := by decide

theorem fresh_building_id (B D : List CatalogEntry) (s : ZooState)
    (hwf : CatalogWF B D) (hid : IdInv B D s) (t : String)
    (ht : t ∈ B.map CatalogEntry.id) :
    mkId t s.nextBuildingId ∉ allIds s := by
  obtain ⟨hIb, hId, hIe, _⟩ := hid
  have hT := catalogWF_props B D hwf t
    (by rw [List.map_append]; exact List.mem_append_left _ ht)
  intro hmem
  rw [allIds_eq] at hmem
  rcases List.mem_append.mp hmem with hmem' | hmemE
  · rcases List.mem_append.mp hmem' with hmemB | hmemD
    · obtain ⟨b, hb, hbid⟩ := List.mem_map.mp hmemB
      obtain ⟨t', k, ht', hk, hbid'⟩ := hIb b hb
      rw [hbid'] at hbid
      have hT' := catalogWF_props B D hwf t'
        (by rw [List.map_append]; exact List.mem_append_left _ ht')
      obtain ⟨_, hkk⟩ := mkId_inj t' t k s.nextBuildingId hT'.1 hT.1 hbid
      omega
    · obtain ⟨d, hd, hdid⟩ := List.mem_map.mp hmemD
      obtain ⟨t', k, ht', hk, hdid'⟩ := hId d hd
      rw [hdid'] at hdid
      have hT' := catalogWF_props B D hwf t'
        (by rw [List.map_append]; exact List.mem_append_right _ ht')
      obtain ⟨heq, _⟩ := mkId_inj t' t k s.nextBuildingId hT'.1 hT.1 hdid
      exact catalogWF_disjoint B D hwf t ht (heq ▸ ht')
  · obtain ⟨e, he, heid⟩ := List.mem_map.mp hmemE
    obtain ⟨k, hk, heid'⟩ := hIe e he
    rw [heid'] at heid
    obtain ⟨heq, _⟩ := mkId_inj "enclosure" t k s.nextBuildingId
      enclosure_hyphen_free hT.1 heid
    exact hT.2 heq.symm

theorem fresh_decoration_id (B D : List CatalogEntry) (s : ZooState)
    (hwf : CatalogWF B D) (hid : IdInv B D s) (t : String)
    (ht : t ∈ D.map CatalogEntry.id) :
    mkId t s.nextDecorationId ∉ allIds s := by
  obtain ⟨hIb, hId, hIe, _⟩ := hid
  have hT := catalogWF_props B D hwf t
    (by rw [List.map_append]; exact List.mem_append_right _ ht)
  intro hmem
  rw [allIds_eq] at hmem
  rcases List.mem_append.mp hmem with hmem' | hmemE
  · rcases List.mem_append.mp hmem' with hmemB | hmemD
    · obtain ⟨b, hb, hbid⟩ := List.mem_map.mp hmemB
      obtain ⟨t', k, ht', hk, hbid'⟩ := hIb b hb
      rw [hbid'] at hbid
      have hT' := catalogWF_props B D hwf t'
        (by rw [List.map_append]; exact List.mem_append_left _ ht')
      obtain ⟨heq, _⟩ := mkId_inj t' t k s.nextDecorationId hT'.1 hT.1 hbid
      exact catalogWF_disjoint B D hwf t (heq ▸ ht') ht
    · obtain ⟨d, hd, hdid⟩ := List.mem_map.mp hmemD
      obtain ⟨t', k, ht', hk, hdid'⟩ := hId d hd
      rw [hdid'] at hdid
      have hT' := catalogWF_props B D hwf t'
        (by rw [List.map_append]; exact List.mem_append_right _ ht')
      obtain ⟨_, hkk⟩ := mkId_inj t' t k s.nextDecorationId hT'.1 hT.1 hdid
      omega
  · obtain ⟨e, he, heid⟩ := List.mem_map.mp hmemE
    obtain ⟨k, hk, heid'⟩ := hIe e he
    rw [heid'] at heid
    obtain ⟨heq, _⟩ := mkId_inj "enclosure" t k s.nextDecorationId
      enclosure_hyphen_free hT.1 heid
    exact hT.2 heq.symm

theorem fresh_enclosure_id (B D : List CatalogEntry) (s : ZooState)
    (hwf : CatalogWF B D) (hid : IdInv B D s) :
    mkId "enclosure" s.nextEnclosureId ∉ allIds s := by
  obtain ⟨hIb, hId, hIe, _⟩ := hid
  intro hmem
  rw [allIds_eq] at hmem
  rcases List.mem_append.mp hmem with hmem' | hmemE
  · rcases List.mem_append.mp hmem' with hmemB | hmemD
    · obtain ⟨b, hb, hbid⟩ := List.mem_map.mp hmemB
      obtain ⟨t', k, ht', hk, hbid'⟩ := hIb b hb
      rw [hbid'] at hbid
      have hT' := catalogWF_props B D hwf t'
        (by rw [List.map_append]; exact List.mem_append_left _ ht')
      obtain ⟨heq, _⟩ := mkId_inj t' "enclosure" k s.nextEnclosureId hT'.1
        enclosure_hyphen_free hbid
      exact hT'.2 heq
    · obtain ⟨d, hd, hdid⟩ := List.mem_map.mp hmemD
      obtain ⟨t', k, ht', hk, hdid'⟩ := hId d hd
      rw [hdid'] at hdid
      have hT' := catalogWF_props B D hwf t'
        (by rw [List.map_append]; exact List.mem_append_right _ ht')
      obtain ⟨heq, _⟩ := mkId_inj t' "enclosure" k s.nextEnclosureId hT'.1
        enclosure_hyphen_free hdid
      exact hT'.2 heq
  · obtain ⟨e, he, heid⟩ := List.mem_map.mp hmemE
    obtain ⟨k, hk, heid'⟩ := hIe e he
    rw [heid'] at heid
    obtain ⟨_, hkk⟩ := mkId_inj "enclosure" "enclosure" k s.nextEnclosureId
      enclosure_hyphen_free enclosure_hyphen_free heid
    omega

/-! ### Invariant preservation under insertion -/

theorem rectsOverlap_symm_false {p q : String × Rect}
    (h : rectsOverlap p.2 q.2 = false) : rectsOverlap q.2 p.2 = false := by
  rw [rectsOverlap_comm]
  exact h

theorem entRects_assoc (s : ZooState) :
    entRects s =
      s.placedBuildings.map (fun x => (x.id, ⟨x.gridX, x.gridY, x.width, x.height⟩)) ++
      (s.placedDecorations.map (fun x => (x.id, ⟨x.gridX, x.gridY, x.width, x.height⟩)) ++
       s.enclosures.map (fun x => (x.id, ⟨x.gridX, x.gridY, x.width, x.height⟩))) := by
  simp [entRects, List.append_assoc]

theorem Inv_addBuilding (B D : List CatalogEntry) (s : ZooState)
    (hwf : CatalogWF B D) (hinv : Inv B D s)
    (item : CatalogEntry) (hitem : item ∈ B) (gx gy : Int)
    (hov : checkOverlap s gx gy item.width item.height none = false)
    (hguard : item.id = "restroom" ∨
      ∀ b ∈ s.placedBuildings, jsIncludes b.id item.id = false) :
    Inv B D (addBuilding item gx gy s) := by
  obtain ⟨hpw, ⟨hIb, hId, hIe, hnodup⟩, hUe, hUb⟩ := hinv
  have hfresh := fresh_building_id B D s hwf ⟨hIb, hId, hIe, hnodup⟩ item.id
    (List.mem_map_of_mem CatalogEntry.id hitem)
  have hER : entRects (addBuilding item gx gy s) =
      s.placedBuildings.map (fun x => (x.id, ⟨x.gridX, x.gridY, x.width, x.height⟩)) ++
      (mkId item.id s.nextBuildingId, (⟨gx, gy, item.width, item.height⟩ : Rect)) ::
      (s.placedDecorations.map (fun x => (x.id, ⟨x.gridX, x.gridY, x.width, x.height⟩)) ++
       s.enclosures.map (fun x => (x.id, ⟨x.gridX, x.gridY, x.width, x.height⟩))) := by
    simp [entRects, addBuilding, List.map_append, List.append_assoc]
  refine ⟨?_, ⟨?_, ?_, ?_, ?_⟩, hUe, ?_⟩
  · rw [pairwiseNoOv_iff, hER,
      List.pairwise_middle (fun {p q} => rectsOverlap_symm_false),
      List.pairwise_cons]
    constructor
    · intro q hq
      have hq' : q ∈ entRects s := by
        rw [entRects_assoc]
        exact hq
      exact (checkOverlap_eq_false_iff s gx gy item.width item.height none).mp
        hov q hq' rfl
    · rw [← entRects_assoc]
      exact (pairwiseNoOv_iff _).mp hpw
  · intro x hx
    rw [show (addBuilding item gx gy s).placedBuildings =
      s.placedBuildings ++
        [⟨mkId item.id s.nextBuildingId, item.width, item.height, gx, gy⟩]
      from rfl] at hx
    rcases List.mem_append.mp hx with hx | hx
    · obtain ⟨t, k, h1, h2, h3⟩ := hIb x hx
      exact ⟨t, k, h1, by simp [addBuilding]; omega, h3⟩
    · rw [List.mem_singleton] at hx
      subst hx
      exact ⟨item.id, s.nextBuildingId,
        List.mem_map_of_mem CatalogEntry.id hitem, by simp [addBuilding], rfl⟩
  · exact hId
  · exact hIe
  · rw [allIds_eq,
      show (addBuilding item gx gy s).placedBuildings =
        s.placedBuildings ++
          [⟨mkId item.id s.nextBuildingId, item.width, item.height, gx, gy⟩]
        from rfl,
      show (addBuilding item gx gy s).placedDecorations = s.placedDecorations
        from rfl,
      show (addBuilding item gx gy s).enclosures = s.enclosures from rfl]
    rw [List.map_append,
      show List.map PlacedItem.id
        [(⟨mkId item.id s.nextBuildingId, item.width, item.height, gx, gy⟩ : PlacedItem)] =
        [mkId item.id s.nextBuildingId] from rfl]
    have hmid : (s.placedBuildings.map PlacedItem.id ++
        [mkId item.id s.nextBuildingId]) ++
        s.placedDecorations.map PlacedItem.id ++
        s.enclosures.map Enclosure.id =
        s.placedBuildings.map PlacedItem.id ++
          mkId item.id s.nextBuildingId ::
            (s.placedDecorations.map PlacedItem.id ++
             s.enclosures.map Enclosure.id) := by
      simp [List.append_assoc]
    rw [hmid, List.nodup_middle, List.nodup_cons]
    constructor
    · intro habs
      apply hfresh
      rw [allIds_eq]
      rcases List.mem_append.mp habs with h | h
      · exact List.mem_append_left _ (List.mem_append_left _ h)
      · rcases List.mem_append.mp h with h | h
        · exact List.mem_append_left _ (List.mem_append_right _ h)
        · exact List.mem_append_right _ h
    · rw [allIds_eq] at hnodup
      simpa [List.append_assoc] using hnodup
  · intro t ht htr
    rw [show (addBuilding item gx gy s).placedBuildings =
      s.placedBuildings ++
        [⟨mkId item.id s.nextBuildingId, item.width, item.height, gx, gy⟩]
      from rfl, List.map_append,
      show List.map PlacedItem.id
        [(⟨mkId item.id s.nextBuildingId, item.width, item.height, gx, gy⟩ : PlacedItem)] =
        [mkId item.id s.nextBuildingId] from rfl,
      List.countP_append]
    by_cases hti : t.id = item.id
    · have hitemnr : item.id ≠ "restroom" := hti ▸ htr
      have hguard' : ∀ b ∈ s.placedBuildings, jsIncludes b.id item.id = false :=
        hguard.resolve_left hitemnr
      have hzero : (s.placedBuildings.map PlacedItem.id).countP
          (fun i => (t.id ++ "-").data.isPrefixOf i.data) = 0 := by
        rw [List.countP_eq_zero]
        intro i hi hp
        obtain ⟨b, hb, rfl⟩ := List.mem_map.mp hi
        have hpre : (t.id ++ "-").data <+: b.id.data :=
          List.isPrefixOf_iff_prefix.mp hp
        have hpre2 : item.id.data <+: b.id.data := by
          refine List.IsPrefix.trans ?_ hpre
          rw [← hti]
          exact ⟨("-" : String).data, (String.data_append t.id "-").symm⟩
        have hinf : item.id.data <:+: b.id.data := hpre2.isInfix
        have hj := hguard' b hb
        rw [jsIncludes] at hj
        simp [hinf] at hj
      rw [hzero]
      have hle := List.countP_le_length
        (l := [mkId item.id s.nextBuildingId])
        (p := fun i => (t.id ++ "-").data.isPrefixOf i.data)
      simp only [List.length_singleton] at hle
      omega
    · have hTt : '-' ∉ t.id.data := (catalogWF_props B D hwf t.id
        (by rw [List.map_append]
            exact List.mem_append_left _ (List.mem_map_of_mem CatalogEntry.id ht))).1
      have hTi : '-' ∉ item.id.data := (catalogWF_props B D hwf item.id
        (by rw [List.map_append]
            exact List.mem_append_left _
              (List.mem_map_of_mem CatalogEntry.id hitem))).1
      have hfalse : ((t.id ++ "-").data.isPrefixOf
          (mkId item.id s.nextBuildingId).data) = false := by
        rcases Bool.eq_false_or_eq_true ((t.id ++ "-").data.isPrefixOf
          (mkId item.id s.nextBuildingId).data) with h | h
        · exact absurd ((prefix_mkId_iff item.id t.id s.nextBuildingId hTi hTt).mp h) hti
        · exact h
      rw [List.countP_cons, if_neg (fun habs => Bool.false_ne_true (hfalse ▸ habs))]
      have := hUb t ht htr
      simp only [List.countP_nil]
      omega

theorem Inv_addDecoration (B D : List CatalogEntry) (s : ZooState)
    (hwf : CatalogWF B D) (hinv : Inv B D s)
    (item : CatalogEntry) (hitem : item ∈ D) (gx gy : Int)
    (hov : checkOverlap s gx gy item.width item.height none = false) :
    Inv B D (addDecoration item gx gy s) := by
  obtain ⟨hpw, ⟨hIb, hId, hIe, hnodup⟩, hUe, hUb⟩ := hinv
  have hfresh := fresh_decoration_id B D s hwf ⟨hIb, hId, hIe, hnodup⟩ item.id
    (List.mem_map_of_mem CatalogEntry.id hitem)
  have hER : entRects (addDecoration item gx gy s) =
      (s.placedBuildings.map (fun x => (x.id, ⟨x.gridX, x.gridY, x.width, x.height⟩)) ++
       s.placedDecorations.map (fun x => (x.id, ⟨x.gridX, x.gridY, x.width, x.height⟩))) ++
      (mkId item.id s.nextDecorationId, (⟨gx, gy, item.width, item.height⟩ : Rect)) ::
      s.enclosures.map (fun x => (x.id, ⟨x.gridX, x.gridY, x.width, x.height⟩)) := by
    simp [entRects, addDecoration, List.map_append, List.append_assoc]
  refine ⟨?_, ⟨hIb, ?_, ?_, ?_⟩, hUe, hUb⟩
  · rw [pairwiseNoOv_iff, hER,
      List.pairwise_middle (fun {p q} => rectsOverlap_symm_false),
      List.pairwise_cons]
    constructor
    · intro q hq
      have hq' : q ∈ entRects s := hq
      exact (checkOverlap_eq_false_iff s gx gy item.width item.height none).mp
        hov q hq' rfl
    · exact (pairwiseNoOv_iff _).mp hpw
  · intro x hx
    rw [show (addDecoration item gx gy s).placedDecorations =
      s.placedDecorations ++
        [⟨mkId item.id s.nextDecorationId, item.width, item.height, gx, gy⟩]
      from rfl] at hx
    rcases List.mem_append.mp hx with hx | hx
    · obtain ⟨t, k, h1, h2, h3⟩ := hId x hx
      exact ⟨t, k, h1, by simp [addDecoration]; omega, h3⟩
    · rw [List.mem_singleton] at hx
      subst hx
      exact ⟨item.id, s.nextDecorationId,
        List.mem_map_of_mem CatalogEntry.id hitem, by simp [addDecoration], rfl⟩
  · exact hIe
  · rw [allIds_eq,
      show (addDecoration item gx gy s).placedBuildings = s.placedBuildings
        from rfl,
      show (addDecoration item gx gy s).placedDecorations =
        s.placedDecorations ++
          [⟨mkId item.id s.nextDecorationId, item.width, item.height, gx, gy⟩]
        from rfl,
      show (addDecoration item gx gy s).enclosures = s.enclosures from rfl]
    rw [List.map_append,
      show List.map PlacedItem.id
        [(⟨mkId item.id s.nextDecorationId, item.width, item.height, gx, gy⟩ : PlacedItem)] =
        [mkId item.id s.nextDecorationId] from rfl]
    have hmid : s.placedBuildings.map PlacedItem.id ++
        (s.placedDecorations.map PlacedItem.id ++ [mkId item.id s.nextDecorationId]) ++
        s.enclosures.map Enclosure.id =
        (s.placedBuildings.map PlacedItem.id ++
          s.placedDecorations.map PlacedItem.id) ++
          mkId item.id s.nextDecorationId :: s.enclosures.map Enclosure.id := by
      simp [List.append_assoc]
    rw [hmid, List.nodup_middle, List.nodup_cons]
    constructor
    · intro habs
      apply hfresh
      rw [allIds_eq]
      rcases List.mem_append.mp habs with h | h
      · rcases List.mem_append.mp h with h | h
        · exact List.mem_append_left _ (List.mem_append_left _ h)
        · exact List.mem_append_left _ (List.mem_append_right _ h)
      · exact List.mem_append_right _ h
    · rw [allIds_eq] at hnodup
      simpa [List.append_assoc] using hnodup

theorem Inv_addEnclosure (B D : List CatalogEntry) (s : ZooState)
    (hwf : CatalogWF B D) (hinv : Inv B D s) (gx gy w h : Int)
    (hov : checkOverlap s gx gy w h none = false) :
    Inv B D (addEnclosure gx gy w h s) := by
  unfold addEnclosure
  cases hsel : s.selectedAnimal with
  | none => exact hinv
  | some animal =>
    dsimp only
    cases hused : s.enclosures.any (fun e => e.animal == animal) with
    | true =>
      rw [if_pos rfl]
      exact hinv
    | false =>
      rw [if_neg Bool.false_ne_true]
      obtain ⟨hpw, ⟨hIb, hId, hIe, hnodup⟩, hUe, hUb⟩ := hinv
      have hfresh := fresh_enclosure_id B D s hwf ⟨hIb, hId, hIe, hnodup⟩
      have hanim : animal ∉ s.enclosures.map Enclosure.animal := by
        intro habs
        obtain ⟨e, he, heq⟩ := List.mem_map.mp habs
        have : s.enclosures.any (fun e => e.animal == animal) = true :=
          List.any_eq_true.mpr ⟨e, he, by simp [heq]⟩
        rw [hused] at this
        exact Bool.false_ne_true this
      set s' : ZooState :=
        { s with
          selectedAnimal := some animal
          enclosures := s.enclosures ++
            [⟨mkId "enclosure" s.nextEnclosureId, gx, gy, w, h, animal⟩]
          nextEnclosureId := s.nextEnclosureId + 1 } with hs'
      have hER : entRects s' = entRects s ++
          [(mkId "enclosure" s.nextEnclosureId, (⟨gx, gy, w, h⟩ : Rect))] := by
        simp [hs', entRects, List.map_append, List.append_assoc]
      refine ⟨?_, ⟨hIb, hId, ?_, ?_⟩, ?_, hUb⟩
      · rw [pairwiseNoOv_iff, hER,
          show entRects s ++
            [(mkId "enclosure" s.nextEnclosureId, (⟨gx, gy, w, h⟩ : Rect))] =
            entRects s ++
              (mkId "enclosure" s.nextEnclosureId, (⟨gx, gy, w, h⟩ : Rect)) :: []
            from rfl,
          List.pairwise_middle (fun {p q} => rectsOverlap_symm_false),
          List.pairwise_cons]
        constructor
        · intro q hq
          rw [List.append_nil] at hq
          exact (checkOverlap_eq_false_iff s gx gy w h none).mp hov q hq rfl
        · rw [List.append_nil]
          exact (pairwiseNoOv_iff _).mp hpw
      · intro x hx
        rcases List.mem_append.mp hx with hx | hx
        · obtain ⟨k, h2, h3⟩ := hIe x hx
          exact ⟨k, by simp only [hs']; omega, h3⟩
        · rw [List.mem_singleton] at hx
          subst hx
          exact ⟨s.nextEnclosureId, by simp only [hs']; omega, rfl⟩
      · rw [allIds_eq] at hnodup ⊢
        rw [show s'.placedBuildings = s.placedBuildings from rfl,
          show s'.placedDecorations = s.placedDecorations from rfl,
          show s'.enclosures = s.enclosures ++
            [⟨mkId "enclosure" s.nextEnclosureId, gx, gy, w, h, animal⟩] from rfl,
          List.map_append,
          show List.map Enclosure.id
            [(⟨mkId "enclosure" s.nextEnclosureId, gx, gy, w, h, animal⟩ : Enclosure)] =
            [mkId "enclosure" s.nextEnclosureId] from rfl]
        have hmid : s.placedBuildings.map PlacedItem.id ++
            s.placedDecorations.map PlacedItem.id ++
            (s.enclosures.map Enclosure.id ++ [mkId "enclosure" s.nextEnclosureId]) =
            (s.placedBuildings.map PlacedItem.id ++
              s.placedDecorations.map PlacedItem.id ++
              s.enclosures.map Enclosure.id) ++
              mkId "enclosure" s.nextEnclosureId :: [] := by
          simp [List.append_assoc]
        rw [hmid, List.nodup_middle, List.nodup_cons]
        refine ⟨?_, by simpa using hnodup⟩
        intro habs
        rw [List.append_nil] at habs
        exact hfresh (by rw [allIds_eq]; exact habs)
      · rw [show s'.enclosures = s.enclosures ++
          [⟨mkId "enclosure" s.nextEnclosureId, gx, gy, w, h, animal⟩] from rfl,
          List.map_append,
          show List.map Enclosure.animal
            [(⟨mkId "enclosure" s.nextEnclosureId, gx, gy, w, h, animal⟩ : Enclosure)] =
            [animal] from rfl,
          show s.enclosures.map Enclosure.animal ++ [animal] =
            s.enclosures.map Enclosure.animal ++ animal :: [] from rfl,
          List.nodup_middle, List.nodup_cons]
        refine ⟨?_, by simpa using hUe⟩
        intro habs
        rw [List.append_nil] at habs
        exact hanim habs

/-! ### Invariant preservation under deletion and reset -/

theorem Inv_filter (B D : List CatalogEntry) (s s' : ZooState)
    (hinv : Inv B D s)
    (hb : s'.placedBuildings.Sublist s.placedBuildings)
    (hd : s'.placedDecorations.Sublist s.placedDecorations)
    (he : s'.enclosures.Sublist s.enclosures)
    (hnb : s'.nextBuildingId = s.nextBuildingId)
    (hnd : s'.nextDecorationId = s.nextDecorationId)
    (hne : s'.nextEnclosureId = s.nextEnclosureId) :
    Inv B D s' := by
  obtain ⟨hpw, ⟨hIb, hId, hIe, hnodup⟩, hUe, hUb⟩ := hinv
  have hsubER : (entRects s').Sublist (entRects s) := by
    unfold entRects
    exact ((hb.map _).append (hd.map _)).append (he.map _)
  refine ⟨?_, ⟨?_, ?_, ?_, ?_⟩, ?_, ?_⟩
  · rw [pairwiseNoOv_iff] at hpw ⊢
    exact hpw.sublist hsubER
  · intro x hx
    obtain ⟨t, k, h1, h2, h3⟩ := hIb x (hb.subset hx)
    exact ⟨t, k, h1, by omega, h3⟩
  · intro x hx
    obtain ⟨t, k, h1, h2, h3⟩ := hId x (hd.subset hx)
    exact ⟨t, k, h1, by omega, h3⟩
  · intro x hx
    obtain ⟨k, h2, h3⟩ := hIe x (he.subset hx)
    exact ⟨k, by omega, h3⟩
  · rw [allIds_eq] at hnodup ⊢
    exact hnodup.sublist (((hb.map _).append (hd.map _)).append (he.map _))
  · exact hUe.sublist (he.map _)
  · intro t ht htr
    exact le_trans (List.Sublist.countP_le _ (hb.map _)) (hUb t ht htr)

theorem Inv_startOver (B D : List CatalogEntry) (s : ZooState) :
    Inv B D (startOver s) := by
  refine ⟨rfl, ⟨?_, ?_, ?_, ?_⟩, ?_, ?_⟩ <;>
    simp [startOver, allIds_eq]

theorem Inv_deleteBuilding (B D : List CatalogEntry) (s : ZooState)
    (hinv : Inv B D s) (id : String) : Inv B D (deleteBuilding id s) :=
  Inv_filter B D s _ hinv (List.filter_sublist _) (List.Sublist.refl _)
    (List.Sublist.refl _) rfl rfl rfl

theorem Inv_deleteDecoration (B D : List CatalogEntry) (s : ZooState)
    (hinv : Inv B D s) (id : String) : Inv B D (deleteDecoration id s) :=
  Inv_filter B D s _ hinv (List.Sublist.refl _) (List.filter_sublist _)
    (List.Sublist.refl _) rfl rfl rfl

theorem Inv_deleteEnclosure (B D : List CatalogEntry) (s : ZooState)
    (hinv : Inv B D s) (id : String) : Inv B D (deleteEnclosure id s) :=
  Inv_filter B D s _ hinv (List.Sublist.refl _) (List.Sublist.refl _)
    (List.filter_sublist _) rfl rfl rfl

theorem Inv_deleteAllRestrooms (B D : List CatalogEntry) (s : ZooState)
    (hinv : Inv B D s) : Inv B D (deleteAllRestrooms s) :=
  Inv_filter B D s _ hinv (List.filter_sublist _) (List.Sublist.refl _)
    (List.Sublist.refl _) rfl rfl rfl

theorem Inv_deleteAllDecorationType (B D : List CatalogEntry) (s : ZooState)
    (hinv : Inv B D s) (t : String) : Inv B D (deleteAllDecorationType t s) :=
  Inv_filter B D s _ hinv (List.Sublist.refl _) (List.filter_sublist _)
    (List.Sublist.refl _) rfl rfl rfl

theorem Inv_deleteEnclosureByAnimal (B D : List CatalogEntry) (s : ZooState)
    (hinv : Inv B D s) (a : String) : Inv B D (deleteEnclosureByAnimal a s) := by
  unfold deleteEnclosureByAnimal
  cases s.enclosures.find? (fun e => e.animal == a) with
  | none => exact hinv
  | some enc => exact Inv_deleteEnclosure B D s hinv enc.id

theorem Inv_deleteEntity (B D : List CatalogEntry) (s : ZooState)
    (hinv : Inv B D s) (ty : ItemType) (id : String) :
    Inv B D (deleteEntity s ty id) := by
  cases ty
  · exact Inv_deleteBuilding B D s hinv id
  · exact Inv_deleteDecoration B D s hinv id
  · exact Inv_deleteEnclosure B D s hinv id

/-! ### Invariant preservation under drop and draw -/

theorem Inv_handleGridDrop (B D : List CatalogEntry) (s : ZooState)
    (hwf : CatalogWF B D) (hinv : Inv B D s) (itemId : String) (gx gy : Int) :
    Inv B D (handleGridDrop B D itemId gx gy s) := by
  unfold handleGridDrop
  cases hfB : B.find? (fun b => b.id == itemId) with
  | some item =>
    dsimp only
    by_cases hg : (!(item.id == "restroom") &&
        s.placedBuildings.any (fun b => jsIncludes b.id item.id)) = true
    · rw [if_pos hg]
      exact hinv
    · rw [if_neg hg]
      by_cases hc : (decide (gx + item.width ≤ GRID_SIZE) &&
          decide (gy + item.height ≤ GRID_SIZE) &&
          !(checkOverlap s gx gy item.width item.height)) = true
      · rw [if_pos hc]
        refine Inv_addBuilding B D s hwf hinv item
          (List.mem_of_find?_eq_some hfB) gx gy ?_ ?_
        · have h2 := ((Bool.and_eq_true _ _).mp hc).2
          rwa [Bool.not_eq_true'] at h2
        · rcases Bool.eq_false_or_eq_true (item.id == "restroom") with hr | hr
          · left
            simpa using hr
          · right
            have hany : s.placedBuildings.any
                (fun b => jsIncludes b.id item.id) = false := by
              rcases Bool.eq_false_or_eq_true (s.placedBuildings.any
                (fun b => jsIncludes b.id item.id)) with ha | ha
              · exact absurd (by rw [hr, ha]; rfl) hg
              · exact ha
            intro b hb
            rcases Bool.eq_false_or_eq_true (jsIncludes b.id item.id) with hj | hj
            · have : s.placedBuildings.any (fun b => jsIncludes b.id item.id)
                  = true := List.any_eq_true.mpr ⟨b, hb, hj⟩
              rw [hany] at this
              exact absurd this Bool.false_ne_true
            · exact hj
      · rw [if_neg hc]
        exact hinv
  | none =>
    cases hfD : D.find? (fun d => d.id == itemId) with
    | some item =>
      dsimp only
      by_cases hc : (decide (gx + item.width ≤ GRID_SIZE) &&
          decide (gy + item.height ≤ GRID_SIZE) &&
          !(checkOverlap s gx gy item.width item.height)) = true
      · rw [if_pos hc]
        refine Inv_addDecoration B D s hwf hinv item
          (List.mem_of_find?_eq_some hfD) gx gy ?_
        have h2 := ((Bool.and_eq_true _ _).mp hc).2
        rwa [Bool.not_eq_true'] at h2
      · rw [if_neg hc]
        exact hinv
    | none => exact hinv

theorem Inv_drawOnUp (B D : List CatalogEntry) (s : ZooState)
    (hwf : CatalogWF B D) (hinv : Inv B D s) (sx sy cx cy : Int) :
    Inv B D (drawOnUp s sx sy cx cy) := by
  unfold drawOnUp
  dsimp only
  by_cases hc : (decide (0 < |cx - sx| + 1) && decide (0 < |cy - sy| + 1) &&
      !(checkOverlap s (jsMin sx cx) (jsMin sy cy) (|cx - sx| + 1)
        (|cy - sy| + 1))) = true
  · rw [if_pos hc]
    refine Inv_addEnclosure B D s hwf hinv _ _ _ _ ?_
    have h2 := ((Bool.and_eq_true _ _).mp hc).2
    rwa [Bool.not_eq_true'] at h2
  · rw [if_neg hc]
    exact hinv

/-! ### Invariant preservation under whole gestures -/

theorem mem_middle_ne {l₁ l₂ : List (String × Rect)} {idv : String}
    {r r' : Rect} {q : String × Rect}
    (hq : q ∈ l₁ ++ (idv, r) :: l₂) (hne : q.1 ≠ idv) :
    q ∈ l₁ ++ (idv, r') :: l₂ := by
  rcases List.mem_append.mp hq with h | h
  · exact List.mem_append_left _ h
  · rcases List.mem_cons.mp h with h | h
    · exact absurd (by rw [h]) hne
    · exact List.mem_append_right _ (List.mem_cons_of_mem _ h)

theorem setPos_building_eq (st : ZooState) (id : String) (x y : Int) :
    setPos st .building id x y =
      { st with placedBuildings := updateFirstBy (fun b => b.id == id) (fun b => { b with gridX := x, gridY := y }) st.placedBuildings } := rfl

theorem setPos_decoration_eq (st : ZooState) (id : String) (x y : Int) :
    setPos st .decoration id x y =
      { st with placedDecorations := updateFirstBy (fun d => d.id == id) (fun d => { d with gridX := x, gridY := y }) st.placedDecorations } := rfl

theorem setPos_enclosure_eq (st : ZooState) (id : String) (x y : Int) :
    setPos st .enclosure id x y =
      { st with enclosures := updateFirstBy (fun e => e.id == id) (fun e => { e with gridX := x, gridY := y }) st.enclosures } := rfl

theorem Inv_setPos (B D : List CatalogEntry) (s : ZooState)
    (hinv : Inv B D s) (ty : ItemType) (id : String) (x y : Int) (r₀ : Rect)
    (hr : entityRect s ty id = some r₀)
    (hov : checkOverlap (setPos s ty id x y) x y r₀.w r₀.h (some id) = false) :
    Inv B D (setPos s ty id x y) := by
  cases ty
  case building =>
    simp only [entityRect, findItem, Option.map_eq_some'] at hr
    obtain ⟨b, hb, hrb⟩ := hr
    have hbid : b.id = id := by simpa using List.find?_some hb
    rw [setPos_building_eq]
    refine Inv_update_building B D s hinv id _ (fun _ => rfl) b hb ?_
    intro q hq hne
    obtain ⟨l₁, l₂, hdec, hdec'⟩ := entRects_update_building s id
      (fun v => { v with gridX := x, gridY := y }) b hb
    have hq2 : q ∈ entRects (setPos s .building id x y) := by
      rw [setPos_building_eq, hdec']
      rw [hdec] at hq
      exact mem_middle_ne hq (by rw [hbid]; exact hne)
    have hfalse := overlap_false_others (setPos s .building id x y) x y
      r₀.w r₀.h id hov q hq2 hne
    rw [← hrb] at hfalse
    exact hfalse
  case decoration =>
    simp only [entityRect, findItem, Option.map_eq_some'] at hr
    obtain ⟨d, hd, hrd⟩ := hr
    have hdid : d.id = id := by simpa using List.find?_some hd
    rw [setPos_decoration_eq]
    refine Inv_update_decoration B D s hinv id _ (fun _ => rfl) d hd ?_
    intro q hq hne
    obtain ⟨l₁, l₂, hdec, hdec'⟩ := entRects_update_decoration s id
      (fun v => { v with gridX := x, gridY := y }) d hd
    have hq2 : q ∈ entRects (setPos s .decoration id x y) := by
      rw [setPos_decoration_eq, hdec']
      rw [hdec] at hq
      exact mem_middle_ne hq (by rw [hdid]; exact hne)
    have hfalse := overlap_false_others (setPos s .decoration id x y) x y
      r₀.w r₀.h id hov q hq2 hne
    rw [← hrd] at hfalse
    exact hfalse
  case enclosure =>
    simp only [entityRect, findEnc, Option.map_eq_some'] at hr
    obtain ⟨e, he, hre⟩ := hr
    have heid : e.id = id := by simpa using List.find?_some he
    rw [setPos_enclosure_eq]
    refine Inv_update_enclosure B D s hinv id _ (fun _ => rfl) (fun _ => rfl)
      e he ?_
    intro q hq hne
    obtain ⟨l₁, l₂, hdec, hdec'⟩ := entRects_update_enclosure s id
      (fun v => { v with gridX := x, gridY := y }) e he
    have hq2 : q ∈ entRects (setPos s .enclosure id x y) := by
      rw [setPos_enclosure_eq, hdec']
      rw [hdec] at hq
      exact mem_middle_ne hq (by rw [heid]; exact hne)
    have hfalse := overlap_false_others (setPos s .enclosure id x y) x y
      r₀.w r₀.h id hov q hq2 hne
    rw [← hre] at hfalse
    exact hfalse

theorem Inv_moveGesture (B D : List CatalogEntry) (s : ZooState)
    (hinv : Inv B D s) (hit : MoveHit) (dx dy : Int) (mi : MovingItem)
    (pts : List MoveEvent) (distSquared : Int) (accept : Bool)
    (hdown : moveOnDown s hit dx dy = some mi) :
    Inv B D (moveOnUp (pts.foldl (moveOnMove mi) s) mi distSquared accept) := by
  obtain ⟨r₀, hr₀, hx₀, hy₀⟩ := moveOnDown_entityRect s hit dx dy mi hdown
  have hrev : setPos s mi.type mi.id mi.originalX mi.originalY = s := by
    rw [← hx₀, ← hy₀]
    exact setPos_self s mi.type mi.id r₀ hr₀
  rcases foldl_moveOnMove_cases mi pts s with hM | ⟨x, y, hM⟩
  · rw [hM]
    by_cases hdist : distSquared < 25
    · rw [moveOnUp_of_lt s mi distSquared accept hdist, hrev]
      cases accept
      · rw [if_neg Bool.false_ne_true]
        exact hinv
      · rw [if_pos rfl]
        exact Inv_deleteEntity B D s hinv mi.type mi.id
    · rw [moveOnUp_of_ge s mi distSquared accept r₀ (by omega) hr₀]
      split
      · rw [hrev]
        exact hinv
      · exact hinv
  · rw [hM]
    have hrM : entityRect (setPos s mi.type mi.id x y) mi.type mi.id =
        some ⟨x, y, r₀.w, r₀.h⟩ := by
      rw [entityRect_setPos, hr₀]
      rfl
    by_cases hdist : distSquared < 25
    · rw [moveOnUp_of_lt _ mi distSquared accept hdist, setPos_setPos, hrev]
      cases accept
      · rw [if_neg Bool.false_ne_true]
        exact hinv
      · rw [if_pos rfl]
        exact Inv_deleteEntity B D s hinv mi.type mi.id
    · rw [moveOnUp_of_ge _ mi distSquared accept ⟨x, y, r₀.w, r₀.h⟩
        (by omega) hrM]
      split
      · rw [setPos_setPos, hrev]
        exact hinv
      · next hcond =>
          have hov : checkOverlap (setPos s mi.type mi.id x y) x y r₀.w r₀.h
              (some mi.id) = false := by
            rcases Bool.eq_false_or_eq_true (checkOverlap
              (setPos s mi.type mi.id x y) x y r₀.w r₀.h (some mi.id)) with h | h
            · exact absurd ((Bool.or_eq_true _ _).mpr (Or.inr h)) hcond
            · exact h
          exact Inv_setPos B D s hinv mi.type mi.id x y r₀ hr₀ hov

theorem resizeOnMove_state (st : ZooState) (id : String) (edge : Edge)
    (px py : Int) :
    resizeOnMove st id edge px py = st ∨
    ∃ f : Enclosure → Enclosure,
      (∀ e, (f e).id = e.id ∧ (f e).animal = e.animal) ∧
      resizeOnMove st id edge px py =
        { st with enclosures := updateFirstBy (fun e => e.id == id) f st.enclosures } := by
  unfold resizeOnMove
  cases hfe : findEnc st.enclosures id with
  | none => exact Or.inl rfl
  | some enc =>
    dsimp only
    split
    · exact Or.inr ⟨(fun e => { e with
        gridX := (resizeCandidate enc edge px py).x,
        gridY := (resizeCandidate enc edge px py).y,
        width := (resizeCandidate enc edge px py).w,
        height := (resizeCandidate enc edge px py).h }),
        fun e => ⟨rfl, rfl⟩, rfl⟩
    · exact Or.inl rfl

theorem foldl_resize_state (id : String) (edge : Edge)
    (rpts : List (Int × Int)) (st : ZooState) :
    rpts.foldl (fun s p => resizeOnMove s id edge p.1 p.2) st = st ∨
    ∃ F : Enclosure → Enclosure,
      (∀ e, (F e).id = e.id ∧ (F e).animal = e.animal) ∧
      rpts.foldl (fun s p => resizeOnMove s id edge p.1 p.2) st =
        { st with enclosures := updateFirstBy (fun e => e.id == id) F st.enclosures } := by
  induction rpts generalizing st with
  | nil => exact Or.inl rfl
  | cons p rest ih =>
    simp only [List.foldl_cons]
    rcases resizeOnMove_state st id edge p.1 p.2 with h | ⟨f, hf, h⟩
    · rw [h]
      exact ih st
    · rw [h]
      rcases ih { st with enclosures := updateFirstBy (fun e => e.id == id) f st.enclosures } with h2 | ⟨F, hF, h2⟩
      · rw [h2]
        exact Or.inr ⟨f, hf, rfl⟩
      · rw [h2]
        refine Or.inr ⟨fun e => F (f e),
          fun e => ⟨by rw [(hF (f e)).1, (hf e).1],
            by rw [(hF (f e)).2, (hf e).2]⟩, ?_⟩
        show ({ st with enclosures := updateFirstBy (fun e => e.id == id) F (updateFirstBy (fun e => e.id == id) f st.enclosures) } : ZooState) = _
        rw [updateFirstBy_comp (fun e => e.id == id) f F st.enclosures
          (fun e => by show ((f e).id == id) = (e.id == id); rw [(hf e).1])]

theorem Inv_resizeOnMove (B D : List CatalogEntry) (s : ZooState)
    (hinv : Inv B D s) (id : String) (edge : Edge) (px py : Int) :
    Inv B D (resizeOnMove s id edge px py) := by
  unfold resizeOnMove
  cases hfe : findEnc s.enclosures id with
  | none => exact hinv
  | some enc =>
    dsimp only
    split
    · next hov' =>
        have hov : checkOverlap s (resizeCandidate enc edge px py).x
            (resizeCandidate enc edge px py).y (resizeCandidate enc edge px py).w
            (resizeCandidate enc edge px py).h (some enc.id) = false := by
          rwa [Bool.not_eq_true'] at hov'
        have hbid : enc.id = id := by simpa using List.find?_some hfe
        refine Inv_update_enclosure B D s hinv id _ (fun _ => rfl) (fun _ => rfl)
          enc hfe ?_
        intro q hq hne
        exact overlap_false_others s _ _ _ _ enc.id hov q hq
          (by rw [hbid]; exact hne)
    · exact hinv

theorem Inv_foldl_resize (B D : List CatalogEntry) (id : String) (edge : Edge)
    (rpts : List (Int × Int)) (s : ZooState) (hinv : Inv B D s) :
    Inv B D (rpts.foldl (fun st p => resizeOnMove st id edge p.1 p.2) s) := by
  induction rpts generalizing s with
  | nil => exact hinv
  | cons p rest ih =>
    simp only [List.foldl_cons]
    exact ih _ (Inv_resizeOnMove B D s hinv id edge p.1 p.2)

theorem Inv_resizeGesture (B D : List CatalogEntry) (s : ZooState)
    (hinv : Inv B D s) (id : String) (edge : Edge) (orig : ResizeOriginal)
    (pts : List (Int × Int)) (distSquared : Int) (accept : Bool)
    (hdown : resizeOnDown s id = some orig) :
    Inv B D (resizeOnUp
      (pts.foldl (fun st p => resizeOnMove st id edge p.1 p.2) s)
      id orig distSquared accept) := by
  obtain ⟨e₀, he₀, horig⟩ : ∃ e₀, findEnc s.enclosures id = some e₀ ∧
      orig = ⟨e₀.gridX, e₀.gridY, e₀.width, e₀.height⟩ := by
    unfold resizeOnDown at hdown
    cases hfe : findEnc s.enclosures id with
    | none =>
      rw [hfe] at hdown
      exact absurd hdown (by simp)
    | some e =>
      rw [hfe] at hdown
      simp only [Option.map_some', Option.some_inj] at hdown
      exact ⟨e, rfl, hdown.symm⟩
  by_cases hdist : distSquared < 25
  · rw [resizeOnUp_of_lt _ id orig distSquared accept hdist]
    dsimp only
    have hrestored : ({ (pts.foldl (fun st p => resizeOnMove st id edge p.1 p.2) s) with enclosures := updateFirstBy (fun e => e.id == id) (fun e => { e with gridX := orig.gridX, gridY := orig.gridY, width := orig.width, height := orig.height }) (pts.foldl (fun st p => resizeOnMove st id edge p.1 p.2) s).enclosures } : ZooState) = s := by
      rcases foldl_resize_state id edge pts s with hM | ⟨F, hF, hM⟩
      · rw [hM]
        have hu : updateFirstBy (fun e => e.id == id) (fun e => { e with gridX := orig.gridX, gridY := orig.gridY, width := orig.width, height := orig.height }) s.enclosures = s.enclosures := by
          refine updateFirstBy_self _ _ _ e₀ he₀ ?_
          rw [horig]
        rw [hu]
      · rw [hM]
        dsimp only
        show ({ s with enclosures := updateFirstBy (fun e => e.id == id) (fun e => { e with gridX := orig.gridX, gridY := orig.gridY, width := orig.width, height := orig.height }) (updateFirstBy (fun e => e.id == id) F s.enclosures) } : ZooState) = s
        rw [updateFirstBy_comp (fun e => e.id == id) F _ s.enclosures
          (fun e => by show ((F e).id == id) = (e.id == id); rw [(hF e).1])]
        have hu : updateFirstBy (fun e => e.id == id) (fun x => ({ F x with gridX := orig.gridX, gridY := orig.gridY, width := orig.width, height := orig.height } : Enclosure)) s.enclosures = s.enclosures := by
          refine updateFirstBy_self _ _ _ e₀ he₀ ?_
          have h1 := (hF e₀).1
          have h2 := (hF e₀).2
          show (⟨(F e₀).id, orig.gridX, orig.gridY, orig.width, orig.height,
            (F e₀).animal⟩ : Enclosure) = e₀
          rw [h1, h2, horig]
        rw [hu]
    rw [hrestored]
    cases accept
    · rw [if_neg Bool.false_ne_true]
      exact hinv
    · rw [if_pos rfl]
      exact Inv_deleteEnclosure B D s hinv id
  · have hup : resizeOnUp
        (pts.foldl (fun st p => resizeOnMove st id edge p.1 p.2) s)
        id orig distSquared accept =
        pts.foldl (fun st p => resizeOnMove st id edge p.1 p.2) s := by
      unfold resizeOnUp
      rw [if_neg hdist]
    rw [hup]
    exact Inv_foldl_resize B D id edge pts s hinv

/-! ### The inductive invariant along interactive operation sequences -/

theorem Inv_initial (B D : List CatalogEntry) : Inv B D initialState := by
  refine ⟨rfl, ⟨?_, ?_, ?_, ?_⟩, ?_, ?_⟩ <;>
    simp [initialState, allIds_eq, entRects]

theorem Step_Inv (B D : List CatalogEntry) (A : List Animal)
    {s s' : ZooState} (hwf : CatalogWF B D) (hinv : Inv B D s)
    (hstep : Step B D A s s') : Inv B D s' := by
  cases hstep with
  | select a => exact hinv
  | drop itemId gx gy => exact Inv_handleGridDrop B D s hwf hinv itemId gx gy
  | draw sx sy cx cy => exact Inv_drawOnUp B D s hwf hinv sx sy cx cy
  | move hit dx dy mi pts distSquared accept hdown =>
    exact Inv_moveGesture B D s hinv hit dx dy mi pts distSquared accept hdown
  | resize id edge orig pts distSquared accept hdown =>
    exact Inv_resizeGesture B D s hinv id edge orig pts distSquared accept hdown
  | delB id => exact Inv_deleteBuilding B D s hinv id
  | delD id => exact Inv_deleteDecoration B D s hinv id
  | delE id => exact Inv_deleteEnclosure B D s hinv id
  | delRestrooms => exact Inv_deleteAllRestrooms B D s hinv
  | delDecoType t => exact Inv_deleteAllDecorationType B D s hinv t
  | delByAnimal a => exact Inv_deleteEnclosureByAnimal B D s hinv a
  | reset => exact Inv_startOver B D s

theorem reachable_inv (B D : List CatalogEntry) (A : List Animal)
    (hwf : CatalogWF B D) {s : ZooState}
    (h : ReachableI B D A s) : Inv B D s := by
  induction h with
  | init => exact Inv_initial B D
  | step _ hstep ih => exact Step_Inv B D A hwf ih hstep

/-- C2 (counterexample to the claim as stated): with decode-and-load among
the operations, a reachable state can hold overlapping entities — loading
`"000000"` against the three-entry catalog places two buildings of catalog
index 0 at the same cell (0,0), and `loadFromURL` runs no overlap check. -/
theorem no_overlap_url_counterexample :
    ReachableURL catalogC9 [] []
      (loadFromURL catalogC9 [] [] "000000" initialState).1 ∧
    pairwiseNoOv (entRects
      (loadFromURL catalogC9 [] [] "000000" initialState).1) = false :=
  ⟨ReachableURL.load "000000" ReachableURL.init, by decide⟩

/-- C2 (amended): for every state reachable from the initial state through
the interactive operations (drop-insert, draw-commit, whole move gestures,
whole resize gestures, the deletions, start-over; decode-and-load
excluded), every pair of distinct stored entities has non-overlapping
rectangles (edge-touching not counting as overlap). -/
theorem no_overlap_invariant (B D : List CatalogEntry) (A : List Animal)
    (s : ZooState) (hwf : CatalogWF B D)
    (hreach : ReachableI B D A s) :
    pairwiseNoOv (entRects s) = true :=
  (reachable_inv B D A hwf hreach).1

/-- Witness for C2's amended theorem: one drop of a cafe at (5,5) from the
initial state. -/
theorem no_overlap_invariant_witness :
    CatalogWF catalogC9 [] ∧
    pairwiseNoOv (entRects
      (handleGridDrop catalogC9 [] "cafe" 5 5 initialState)) = true :=
  ⟨⟨by decide, by decide⟩,
    no_overlap_invariant catalogC9 [] [] _ ⟨by decide, by decide⟩
      (ReachableI.step ReachableI.init (Step.drop initialState "cafe" 5 5))⟩

/-- C5 (counterexample to the claim as stated): with decode-and-load among
the operations, two enclosures with the same occupant id can coexist —
loading `"..0001105511"` places two `lion` enclosures, and `loadFromURL`
runs no per-animal uniqueness check. -/
theorem uniqueness_url_counterexample :
    ReachableURL [] [] animalsC8
      (loadFromURL [] [] animalsC8 "..0001105511" initialState).1 ∧
    ¬ (((loadFromURL [] [] animalsC8 "..0001105511"
        initialState).1.enclosures.map Enclosure.animal).Nodup) :=
  ⟨ReachableURL.load "..0001105511" ReachableURL.init, by decide⟩

/-- C5 (amended): for every state reachable from the initial state through
the interactive operations (decode-and-load excluded), at most one
enclosure exists per occupant id, and at most one placed building instance
exists per catalog entry other than `"restroom"`. -/
theorem uniqueness_invariant (B D : List CatalogEntry) (A : List Animal)
    (s : ZooState) (hwf : CatalogWF B D)
    (hreach : ReachableI B D A s) :
    (s.enclosures.map Enclosure.animal).Nodup ∧
    ∀ t ∈ B, t.id ≠ "restroom" →
      ((s.placedBuildings.map PlacedItem.id).countP
        (fun i => (t.id ++ "-").data.isPrefixOf i.data)) ≤ 1 :=
  (reachable_inv B D A hwf hreach).2.2

/-- Witness for C5's amended theorem: one drop of a giftshop at (0,0) from
the initial state. -/
theorem uniqueness_invariant_witness :
    CatalogWF catalogC9 [] ∧
    ((((handleGridDrop catalogC9 [] "giftshop" 0 0
        initialState)).enclosures.map Enclosure.animal).Nodup ∧
     ∀ t ∈ catalogC9, t.id ≠ "restroom" →
       (((handleGridDrop catalogC9 [] "giftshop" 0 0
          initialState).placedBuildings.map PlacedItem.id).countP
         (fun i => (t.id ++ "-").data.isPrefixOf i.data)) ≤ 1) :=
  ⟨⟨by decide, by decide⟩,
    uniqueness_invariant catalogC9 [] [] _ ⟨by decide, by decide⟩
      (ReachableI.step ReachableI.init
        (Step.drop initialState "giftshop" 0 0))⟩

end ZooPlanner
